import Mathlib

/-!
# FlexiMart ETL pipeline — shallow embedding and verification

This file embeds the core of `etl_pipeline.py` (field normalization,
record-set transforms, identity resolution, and the foreign-key-safe
loader) as executable Lean definitions, and proves or refutes the
specified properties against that embedding.

Modelling conventions:
* A raw CSV cell is `RV`: either `na` (pandas `NaN`/missing) or a string.
* Numeric column values (`price`, `unit_price`, `subtotal`,
  `total_amount`) are modelled as exact rationals `ℚ`; none of the
  verified properties depends on binary floating-point rounding.
* The PostgreSQL store is a record of four in-memory tables; inserts
  reproduce the statements' semantics: `ON CONFLICT ... DO NOTHING`
  arbiter pre-checks, NOT NULL checks, DATE validity, foreign-key
  checks, and fresh surrogate-id assignment.  Each batch+commit is
  all-or-nothing, matching one `execute_batch` + `commit` pair.
* `uuid4`-based randomness (placeholder emails) is modelled by an
  explicit run nonce `salt` plus the row index, so distinct draws are
  distinct strings, as the source relies on.
-/

namespace FlexiMart

/- The arithmetic on `ℚ` must evaluate inside `decide` proofs about
concrete pipeline runs, so the rational primitives are restored to
their default reducibility for this development. -/
attribute [local semireducible] Rat.mul Rat.add Rat.sub Rat.inv Rat.ofScientific

/-- A raw tabular cell: pandas missing value (`NaN`) or a string. -/
inductive RV where
  | na : RV
  | str (v : String) : RV
deriving DecidableEq

/-! ## Character and string utilities (Python `str` operations) -/

/-- Python `str.lower` restricted to ASCII letters (the only characters the
pipeline's data paths rely on). -/
def lowerChar (c : Char) : Char :=
  if 'A' ≤ c ∧ c ≤ 'Z' then Char.ofNat (c.toNat + 32) else c

/-- Python `\s` / `str.isspace` for a character. -/
def isWs (c : Char) : Bool := c.isWhitespace

def notWs (c : Char) : Bool := ¬ isWs c

/-- Python `str.strip` on a character list: drop leading and trailing
whitespace. -/
def stripChars (l : List Char) : List Char :=
  ((l.dropWhile isWs).reverse.dropWhile isWs).reverse

/-- Python `str.strip`. -/
def pyStrip (s : String) : String := ⟨stripChars s.data⟩

/-- Digits of a string, in order (Python `filter(str.isdigit, s)`). -/
def digitsOf (s : String) : List Char := s.data.filter Char.isDigit

/-- Numeric value of a digit list (Python `int` on a digit string). -/
def digitsToNat (l : List Char) : Nat :=
  l.foldl (fun acc c => acc * 10 + (c.toNat - 48)) 0

/-- Decimal rendering of a natural number (Python `str(int)` /
f-string interpolation of an integer).  Structural recursion on a fuel
bound so that the definition evaluates inside the kernel; `n + 1` fuel
always suffices since the quotient strictly decreases. -/
def natDecimalAux : Nat → Nat → List Char → List Char
  | 0, _, acc => acc
  | fuel + 1, n, acc =>
      let d := Char.ofNat (48 + n % 10)
      if n / 10 = 0 then d :: acc else natDecimalAux fuel (n / 10) (d :: acc)

def natDecimal (n : Nat) : String := ⟨natDecimalAux (n + 1) n []⟩

/-! ## Normalizer: field-level cleaning functions -/

/-- `clean_phone`: strip non-digits; if at least 10 digits remain, prepend
the country code to the last 10 digits; otherwise absent. -/
def cleanPhone (num : RV) (countryCode : String) : Option String :=
  match num with
  | .na => none
  | .str s =>
      let digits := digitsOf s
      if digits.length ≥ 10 then
        some (countryCode ++ ⟨digits.drop (digits.length - 10)⟩)
      else none

/-- `clean_id`: extract the digit substring and convert to an integer;
absent when no digits are present. -/
def cleanId (val : RV) : Option Nat :=
  match val with
  | .na => none
  | .str s =>
      let digits := digitsOf s
      if digits.isEmpty then none else some (digitsToNat digits)

/-- Python `str.capitalize`: first character upper-cased, rest lower-cased
(the input reaching it is already lower-cased by `clean_category`). -/
def pyCapitalize (l : List Char) : List Char :=
  match l with
  | [] => []
  | c :: rest => (if 'a' ≤ c ∧ c ≤ 'z' then Char.ofNat (c.toNat - 32) else c) :: rest

/-- `clean_category`: trim, lowercase, capitalize; `"Unknown"` when absent. -/
def cleanCategory (cat : RV) : String :=
  match cat with
  | .na => "Unknown"
  | .str s => ⟨pyCapitalize ((stripChars s.data).map lowerChar)⟩

/-- `canonicalize_email`: trim, lowercase, remove all internal whitespace;
absent when the result is empty. -/
def canonEmailStr (s : String) : Option String :=
  let l := ((stripChars s.data).map lowerChar).filter notWs
  if l.isEmpty then none else some ⟨l⟩

def canonicalizeEmail (email : RV) : Option String :=
  match email with
  | .na => none
  | .str s => canonEmailStr s

/-! ## Date parsing (`clean_date` and helpers) -/

/-- The regex `^\d{4}-\d{2}-\d{2}$` (the exact-ISO fast path). -/
def isIsoShape (s : String) : Bool :=
  match s.data with
  | [y1, y2, y3, y4, '-', m1, m2, '-', d1, d2] =>
      [y1, y2, y3, y4, m1, m2, d1, d2].all Char.isDigit
  | _ => false

/-- Proleptic-Gregorian leap year, as used by `datetime`/`pandas`. -/
def isLeap (y : Nat) : Bool := y % 4 = 0 ∧ (y % 100 ≠ 0 ∨ y % 400 = 0)

def daysInMonth (y m : Nat) : Nat :=
  if m = 2 then (if isLeap y then 29 else 28)
  else if m = 4 ∨ m = 6 ∨ m = 9 ∨ m = 11 then 30
  else 31

/-- Calendar validity as checked by `datetime.strptime` /
`pd.Timestamp`. -/
def validYMD (y m d : Nat) : Bool :=
  1 ≤ y ∧ y ≤ 9999 ∧ 1 ≤ m ∧ m ≤ 12 ∧ 1 ≤ d ∧ d ≤ daysInMonth y m

/-- Zero-padded decimal (as `strftime` produces). -/
def padNum (width n : Nat) : String :=
  let s := natDecimal n
  ⟨List.replicate (width - s.length) '0'⟩ ++ s

/-- `strftime("%Y-%m-%d")`. -/
def formatYMD (y m d : Nat) : String :=
  padNum 4 y ++ "-" ++ padNum 2 m ++ "-" ++ padNum 2 d

theorem dropWhile_length_le (p : α → Bool) (l : List α) :
    (l.dropWhile p).length ≤ l.length := by
  induction l with
  | nil => simp [List.dropWhile]
  | cons a rest ih =>
      simp only [List.dropWhile]
      split
      · exact Nat.le_succ_of_le ih
      · exact Nat.le_refl _

/-- `re.split(r"\D+", s)`: maximal digit runs, with an empty leading
(resp. trailing) token when the string starts (resp. ends) with a
non-digit. -/
def splitTokensAux : List Char → List Char → List String
  | [], cur => [⟨cur.reverse⟩]
  | c :: rest, cur =>
      if c.isDigit then splitTokensAux rest (c :: cur)
      else
        String.mk cur.reverse ::
          splitTokensAux (rest.dropWhile (fun d => ¬ d.isDigit)) []
termination_by l _ => l.length
decreasing_by
  · simp only [List.length_cons]; omega
  · simp only [List.length_cons]
    exact Nat.lt_succ_of_le (dropWhile_length_le _ _)

def splitTokens (s : String) : List String := splitTokensAux s.data []

/-- The regex `^\s*(\d{4})\D+(\d{1,2})\D+(\d{1,2})\s*$` applied to an
already-stripped string. -/
def isYfirstShape (s : String) : Bool :=
  match splitTokens s with
  | [a, b, c] =>
      a.length = 4 ∧ 1 ≤ b.length ∧ b.length ≤ 2 ∧ 1 ≤ c.length ∧ c.length ≤ 2
  | _ => false

/-- `_infer_dayfirst_from_string`: heuristic day-first/month-first hint
from the first two numeric tokens; `none` when ambiguous, when the
string is year-first shaped, or when `int()` raises on an empty token. -/
def inferDayfirst (s : String) : Option Bool :=
  let t := pyStrip s
  if t = "" then none
  else if isYfirstShape t then none
  else
    match splitTokens t with
    | t0 :: t1 :: _ =>
        if t0.isEmpty ∨ t1.isEmpty then none
        else
          let a := digitsToNat t0.data
          let b := digitsToNat t1.data
          if a > 12 ∧ b ≤ 12 then some true
          else if b > 12 ∧ a ≤ 12 then some false
          else none
    | _ => none

/-- Field order of an explicit `strptime` format. -/
inductive DOrder where
  | ymd : DOrder
  | dmy : DOrder
  | mdy : DOrder

/-- Split a character list on every occurrence of `sep`. -/
def splitOnSep : List Char → Char → List (List Char)
  | [], _ => [[]]
  | c :: rest, sep =>
      if c = sep then [] :: splitOnSep rest sep
      else
        match splitOnSep rest sep with
        | [] => [[c]]
        | p :: ps => (c :: p) :: ps

/-- One `datetime.strptime` attempt against a three-field format with a
single-character separator: each field must be all digits of the
admissible width (`%Y`: 1–4, `%m`/`%d`: 1–2) and the resulting date must
be calendar-valid. -/
def tryFormat (s : List Char) (ord : DOrder) (sep : Char) :
    Option (Nat × Nat × Nat) :=
  match splitOnSep s sep with
  | [a, b, c] =>
      let widthOk (l : List Char) (w : Nat) : Bool :=
        decide (1 ≤ l.length) && decide (l.length ≤ w) && l.all Char.isDigit
      let fields :=
        match ord with
        | .ymd => (widthOk a 4 && widthOk b 2 && widthOk c 2,
                   (digitsToNat a, digitsToNat b, digitsToNat c))
        | .dmy => (widthOk a 2 && widthOk b 2 && widthOk c 4,
                   (digitsToNat c, digitsToNat b, digitsToNat a))
        | .mdy => (widthOk a 2 && widthOk b 2 && widthOk c 4,
                   (digitsToNat c, digitsToNat a, digitsToNat b))
      match fields with
      | (ok, (y, m, d)) =>
          if ok && validYMD y m d then some (y, m, d) else none
  | _ => none

/-- The fixed ordered list of explicit formats in `clean_date`. -/
def explicitFormats : List (DOrder × Char) :=
  [(.ymd, '-'), (.ymd, '/'), (.ymd, '.'),
   (.dmy, '/'), (.dmy, '-'), (.dmy, '.'),
   (.mdy, '/'), (.mdy, '-'), (.mdy, '.')]

def tryExplicitFormats (s : List Char) : Option (Nat × Nat × Nat) :=
  explicitFormats.findSome? (fun fc => tryFormat s fc.1 fc.2)

/-- Simplified embedding of the permissive fallback
`pd.to_datetime(s, dayfirst=hint, errors="coerce",
infer_datetime_format=True)`: three numeric tokens, a four-digit year
first or last (with the hint choosing day-first vs month-first in the
latter case), calendar-validated.  The full pandas parser accepts more
inputs; no verified property depends on this branch, and the inputs of
the date claims never reach it. -/
def genericParse (s : String) (hint : Option Bool) :
    Option (Nat × Nat × Nat) :=
  match splitTokens s with
  | [a, b, c] =>
      if a.length = 4 ∧ ¬ a.isEmpty ∧ ¬ b.isEmpty ∧ ¬ c.isEmpty ∧
          (a.data.all Char.isDigit) ∧ (b.data.all Char.isDigit) ∧
          (c.data.all Char.isDigit) then
        let y := digitsToNat a.data
        let m := digitsToNat b.data
        let d := digitsToNat c.data
        if validYMD y m d then some (y, m, d) else none
      else if c.length = 4 ∧ ¬ a.isEmpty ∧ ¬ b.isEmpty ∧ ¬ c.isEmpty ∧
          (a.data.all Char.isDigit) ∧ (b.data.all Char.isDigit) ∧
          (c.data.all Char.isDigit) then
        let y := digitsToNat c.data
        let p := digitsToNat a.data
        let q := digitsToNat b.data
        let md := if hint = some true then (q, p) else (p, q)
        if validYMD y md.1 md.2 then some (y, md.1, md.2) else none
      else none
  | _ => none

/-- `clean_date`: ISO fast path (regex only, no calendar validation),
then the explicit format list, then the hinted permissive parse. -/
def cleanDate (d : RV) : Option String :=
  match d with
  | .na => none
  | .str raw =>
      let s := pyStrip raw
      if s = "" then none
      else if isIsoShape s then some s
      else
        match tryExplicitFormats s.data with
        | some (y, m, dd) => some (formatYMD y m dd)
        | none =>
            (genericParse s (inferDayfirst s)).map
              (fun ymd => formatYMD ymd.1 ymd.2.1 ymd.2.2)

/-- DATE-column validity in the store: the only date strings the
pipeline ever sends are ISO-shaped, and PostgreSQL rejects those that
are not calendar-valid. -/
def validIsoDate (s : String) : Bool :=
  match s.data with
  | [y1, y2, y3, y4, '-', m1, m2, '-', d1, d2] =>
      ([y1, y2, y3, y4, m1, m2, d1, d2].all Char.isDigit) ∧
        validYMD (digitsToNat [y1, y2, y3, y4]) (digitsToNat [m1, m2])
          (digitsToNat [d1, d2])
  | _ => false

/-! ## Numeric coercion (`pd.to_numeric(..., errors="coerce")`) -/

/-- Parse an optionally signed decimal numeral (integer part, optional
fractional part).  Exponent forms are not modelled; no verified
property depends on them. -/
def parseRatChars (l : List Char) : Option ℚ :=
  let signed : ℚ × List Char :=
    match l with
    | '-' :: t => (-1, t)
    | '+' :: t => (1, t)
    | _ => (1, l)
  let sign := signed.1
  let l1 := signed.2
  let intPart := l1.takeWhile Char.isDigit
  let rest := l1.dropWhile Char.isDigit
  match rest with
  | [] =>
      if intPart.isEmpty then none
      else some (sign * (digitsToNat intPart : ℚ))
  | '.' :: frac =>
      if frac.all Char.isDigit && decide (0 < intPart.length + frac.length) then
        some (sign * ((digitsToNat intPart : ℚ) +
          (digitsToNat frac : ℚ) / ((10 : ℚ) ^ frac.length)))
      else none
  | _ => none

/-- `pd.to_numeric(cell, errors="coerce")`: `NaN` (→ `none`) on missing
input or parse failure. -/
def parseNum (v : RV) : Option ℚ :=
  match v with
  | .na => none
  | .str s => parseRatChars (stripChars s.data)

/-- `.astype(int)` on a float: truncation toward zero. -/
def truncToInt (q : ℚ) : Int :=
  if q < 0 then -(Rat.floor (-q)) else Rat.floor q

/-! ## RecordSet Transformer -/

/-- The phone country code from `Config` (`country_code = "+91-"`). -/
def defaultCountryCode : String := "+91-"

/-- Raw customers row (required columns of `customers_raw.csv`). -/
structure RawCustomer where
  customer_id : RV
  first_name : RV
  last_name : RV
  email : RV
  phone : RV
  city : RV
  registration_date : RV
deriving DecidableEq

/-- Transformed customer row. -/
structure TCustomer where
  cid : Option Nat
  first : RV
  last : RV
  email : String
  phone : Option String
  city : RV
  regdate : Option String
deriving DecidableEq

/-- `synthesize_email`: `"unknown+<id>@example.com"` from the cleaned
customer id when available; otherwise a fresh suffix, modelled from the
run nonce and the row index (the source draws 8 random hex chars from
`uuid4`, relied on only for freshness). -/
def synthesizeEmail (cid : Option Nat) (salt idx : Nat) : String :=
  match cid with
  | some n => "unknown+" ++ natDecimal n ++ "@example.com"
  | none => "unknown+u" ++ natDecimal salt ++ "x" ++ natDecimal idx ++ "@example.com"

/-- Per-row part of `transform_customers` (id, email with placeholder
synthesis, phone, registration date). -/
def transformCustomerRow (salt idx : Nat) (r : RawCustomer) : TCustomer :=
  let cid := cleanId r.customer_id
  { cid := cid
    first := r.first_name
    last := r.last_name
    email :=
      match canonicalizeEmail r.email with
      | some e => e
      | none => synthesizeEmail cid salt idx
    phone := cleanPhone r.phone defaultCountryCode
    city := r.city
    regdate := cleanDate r.registration_date }

/-- `drop_duplicates(subset=["email"], keep="first")`. -/
def dedupByEmailAux : List String → List TCustomer → List TCustomer
  | _, [] => []
  | seen, c :: rest =>
      if c.email ∈ seen then dedupByEmailAux seen rest
      else c :: dedupByEmailAux (c.email :: seen) rest

/-- `transform_customers`: clean per row, then deduplicate by email
keeping the first occurrence. -/
def transformCustomers (rows : List RawCustomer) (salt : Nat) : List TCustomer :=
  dedupByEmailAux [] (rows.enum.map (fun p => transformCustomerRow salt p.1 p.2))

/-- `drop_duplicates()` (full-row, keep first). -/
def dedupFullAux [DecidableEq α] : List α → List α → List α
  | _, [] => []
  | seen, a :: rest =>
      if a ∈ seen then dedupFullAux seen rest
      else a :: dedupFullAux (a :: seen) rest

def dedupFull [DecidableEq α] (l : List α) : List α := dedupFullAux [] l

/-- Raw products row.  `product_id` is an optional column; `hasPid`
records whether it is present in the file. -/
structure RawProduct where
  product_id : RV
  product_name : RV
  category : RV
  price : RV
  stock_quantity : RV
deriving DecidableEq

/-- Products row after price/stock/category cleaning, before the
full-row deduplication and the optional `clean_id` on `product_id`. -/
structure ProductStage where
  pidRaw : RV
  name : RV
  category : String
  price : ℚ
  stock : Int
deriving DecidableEq

/-- Transformed product row. -/
structure TProduct where
  pid : Option Nat
  name : RV
  category : String
  price : ℚ
  stock : Int
deriving DecidableEq

def cleanProductRow (r : RawProduct) : ProductStage :=
  { pidRaw := r.product_id
    name := r.product_name
    category := cleanCategory r.category
    price := (parseNum r.price).getD 0
    stock := ((parseNum r.stock_quantity).map truncToInt).getD 0 }

/-- `transform_products`: coerce price/stock with defaults, normalize
category, drop exact duplicates, then clean `product_id` when that
column exists. -/
def transformProducts (hasPid : Bool) (rows : List RawProduct) : List TProduct :=
  let stage := rows.map (fun r =>
    cleanProductRow (if hasPid then r else { r with product_id := RV.na }))
  (dedupFull stage).map (fun p =>
    { pid := if hasPid then cleanId p.pidRaw else none
      name := p.name
      category := p.category
      price := p.price
      stock := p.stock })

/-- Raw sales row. -/
structure RawSales where
  transaction_id : RV
  transaction_date : RV
  customer_id : RV
  product_id : RV
  quantity : RV
  unit_price : RV
deriving DecidableEq

/-- Sales row after `clean_id` on the three identifiers, before
`dropna`/`drop_duplicates` (date/quantity/price still raw, as in the
source's ordering). -/
structure SalesStage where
  tid : Option Nat
  cid : Option Nat
  pid : Option Nat
  dateRaw : RV
  qtyRaw : RV
  priceRaw : RV
deriving DecidableEq

/-- Fully transformed sales line.  Before identity resolution `cid` is
the cleaned source customer id; after resolution it is the store's
durable customer id. -/
structure SLine where
  tid : Option Nat
  cid : Nat
  pid : Nat
  date : Option String
  qty : Int
  price : ℚ
  subtotal : ℚ
  email : Option String
deriving DecidableEq

def stageSalesRow (r : RawSales) : SalesStage :=
  { tid := cleanId r.transaction_id
    cid := cleanId r.customer_id
    pid := cleanId r.product_id
    dateRaw := r.transaction_date
    qtyRaw := r.quantity
    priceRaw := r.unit_price }

/-- Date/quantity/price cleaning and the recomputed
`subtotal = quantity × unit_price`. -/
def cleanSalesRow (s : SalesStage) : SLine :=
  let qty : Int := ((parseNum s.qtyRaw).map truncToInt).getD 0
  let price : ℚ := (parseNum s.priceRaw).getD 0
  { tid := s.tid
    cid := s.cid.getD 0
    pid := s.pid.getD 0
    date := cleanDate s.dateRaw
    qty := qty
    price := price
    subtotal := (qty : ℚ) * price
    email := none }

/-- Left merge of one sales line against the transformed customers on
`customer_id` (pandas row multiplication on multiple matches, `NaN`
email on no match). -/
def mergeEmail (T : List TCustomer) (l : SLine) : List SLine :=
  match T.filter (fun c => c.cid = some l.cid) with
  | [] => [{ l with email := none }]
  | ms => ms.map (fun c => { l with email := some c.email })

/-- `transform_sales_initial`: clean ids, drop rows lacking a customer
or product id, drop exact duplicates, clean fields, compute subtotals,
join customer emails, re-canonicalize the email column. -/
def stagedSales (rows : List RawSales) (T : List TCustomer) : List SLine :=
  let st := (rows.map stageSalesRow).filter (fun s => s.cid.isSome && s.pid.isSome)
  let lines := (dedupFull st).map cleanSalesRow
  (lines.flatMap (mergeEmail T)).map
    (fun l => { l with email := l.email.bind canonEmailStr })

/-! ## Store (PostgreSQL tables and insert-statement semantics)

Each `execute_batch` + `commit` pair in the source is modelled as an
all-or-nothing batch: an error inside a batch leaves the store as it was
at the previous commit (a failed transaction's final `commit` rolls
back).  `ON CONFLICT ... DO NOTHING` is the arbiter pre-check: a
conflicting row on the arbiter constraint skips the insert; NOT NULL
and DATE validity are checked before, foreign keys after the arbiter. -/

structure CustomerRow where
  id : Nat
  first : RV
  last : RV
  email : String
  phone : Option String
  city : RV
  regdate : Option String
deriving DecidableEq

structure ProductRow where
  id : Nat
  name : RV
  category : String
  price : ℚ
  stock : Int
deriving DecidableEq

/-- Schema default of `orders.status` (`DDL_STATEMENTS`). -/
def ordersStatusDefault : String := "Pending"

structure OrderRow where
  id : Nat
  cid : Nat
  date : String
  total : ℚ
  status : String
deriving DecidableEq

structure ItemRow where
  id : Nat
  oid : Nat
  pid : Nat
  qty : Int
  price : ℚ
  subtotal : ℚ
deriving DecidableEq

structure Store where
  customers : List CustomerRow
  products : List ProductRow
  orders : List OrderRow
  items : List ItemRow
deriving DecidableEq

def emptyStore : Store := ⟨[], [], [], []⟩

def customerIds (S : Store) : List Nat := S.customers.map (·.id)

def productIds (S : Store) : List Nat := S.products.map (·.id)

def orderIds (S : Store) : List Nat := S.orders.map (·.id)

def storeEmails (S : Store) : List String := S.customers.map (·.email)

/-- Surrogate-key assignment: a fresh id not yet present. -/
def freshId (ids : List Nat) : Nat := ids.foldr max 0 + 1

/-- A nullable DATE column accepts `NULL` or a calendar-valid ISO
string. -/
def dateColOk : Option String → Bool
  | none => true
  | some d => validIsoDate d

/-- One row of the `INSERT ... ON CONFLICT (email) DO NOTHING` with an
explicit `customer_id` (`OVERRIDING SYSTEM VALUE`). -/
def insertCustomerWithId (c : TCustomer) (cid : Nat) (S : Store) :
    Except String Store :=
  if c.first = RV.na ∨ c.last = RV.na then .error "customers: null name"
  else if ¬ dateColOk c.regdate then .error "customers: bad date"
  else if c.email ∈ storeEmails S then .ok S
  else if cid ∈ customerIds S then .error "customers: duplicate key"
  else .ok { S with customers :=
    S.customers ++ [⟨cid, c.first, c.last, c.email, c.phone, c.city, c.regdate⟩] }

/-- The id-less variant: the store assigns the surrogate key. -/
def insertCustomerAuto (c : TCustomer) (S : Store) : Except String Store :=
  if c.first = RV.na ∨ c.last = RV.na then .error "customers: null name"
  else if ¬ dateColOk c.regdate then .error "customers: bad date"
  else if c.email ∈ storeEmails S then .ok S
  else .ok { S with customers :=
    S.customers ++ [⟨freshId (customerIds S), c.first, c.last, c.email,
      c.phone, c.city, c.regdate⟩] }

/-- Run inserts in sequence; the first error aborts the batch. -/
def insertList (ins : α → Store → Except String Store) :
    List α → Store → Except String Store
  | [], S => .ok S
  | a :: rest, S =>
      match ins a S with
      | .error e => .error e
      | .ok S' => insertList ins rest S'

/-- `upsert_customers`: partition by presence of a cleaned source id;
both partitions insert-ignore on duplicate email; one commit. -/
def upsertCustomers (T : List TCustomer) (S : Store) : Except String Store :=
  match insertList (fun c s => insertCustomerWithId c (c.cid.getD 0) s)
      (T.filter (fun c => c.cid.isSome)) S with
  | .error e => .error e
  | .ok S1 => insertList insertCustomerAuto (T.filter (fun c => c.cid.isNone)) S1

/-- Products insert with explicit id: bare `ON CONFLICT DO NOTHING`
(any unique conflict — here the primary key — skips). -/
def insertProductWithId (p : TProduct) (S : Store) : Except String Store :=
  if p.name = RV.na then .error "products: null name"
  else if p.pid.getD 0 ∈ productIds S then .ok S
  else .ok { S with products :=
    S.products ++ [⟨p.pid.getD 0, p.name, p.category, p.price, p.stock⟩] }

/-- Products insert without id: no conflict clause at all. -/
def insertProductAuto (p : TProduct) (S : Store) : Except String Store :=
  if p.name = RV.na then .error "products: null name"
  else .ok { S with products :=
    S.products ++ [⟨freshId (productIds S), p.name, p.category, p.price, p.stock⟩] }

/-- `load_products`. -/
def loadProducts (P : List TProduct) (S : Store) : Except String Store :=
  match insertList insertProductWithId (P.filter (fun p => p.pid.isSome)) S with
  | .error e => .error e
  | .ok S1 => insertList insertProductAuto (P.filter (fun p => p.pid.isNone)) S1

/-! ## Identity Resolver (`remap_sales_customer_ids`) -/

/-- `fetch_customer_id_by_email` plus dict lookup: keys are the
canonicalized stored emails; on canonical-key collisions the
last-fetched row wins, as in the Python dict build. -/
def lookupEmail (S : Store) (e : String) : Option Nat :=
  (S.customers.reverse.find? (fun c => canonEmailStr c.email = some e)).map (·.id)

/-- Fresh placeholder email for a sales line with an absent email
(`f"unknown+{uuid.uuid4().hex[:8]}@example.com"`, randomness modelled
by the run nonce and line index). -/
def stubEmail (salt idx : Nat) : String :=
  "unknown+g" ++ natDecimal salt ++ "x" ++ natDecimal idx ++ "@example.com"

/-- Assign each email-less line its fresh placeholder. -/
def stubLines (salt : Nat) (lines : List SLine) : List SLine :=
  lines.enum.map (fun p =>
    if p.2.email = none then { p.2 with email := some (stubEmail salt p.1) } else p.2)

/-- The synthesized placeholders, in first-occurrence order (the source
iterates over `set(stub_emails)`; its elements are fresh draws). -/
def stubEmailList (salt : Nat) (lines : List SLine) : List String :=
  dedupFull ((lines.enum.filter (fun p => p.2.email = none)).map
    (fun p => stubEmail salt p.1))

/-- Minimal "Guest" customer row, insert-ignore on duplicate email. -/
def insertStub (S : Store) (em : String) : Store :=
  if em ∈ storeEmails S then S
  else { S with customers :=
    S.customers ++ [⟨freshId (customerIds S), RV.str "Guest", RV.str "Customer",
      em, none, RV.na, none⟩] }

/-- Resolve each line's durable customer id by mapping its email
through the store's mapping (`sales_df["email"].map(email_to_db_cid)`)
and drop the rows whose id stays absent (`dropna`). -/
def resolveAgainst (S : Store) (lines : List SLine) : List SLine :=
  lines.filterMap (fun l =>
    match l.email with
    | none => none
    | some e => (lookupEmail S e).map (fun cid => { l with cid := cid }))

/-- `remap_sales_customer_ids`: build the email→durable-id mapping; if
any line's email is absent, synthesize placeholders, insert Guest rows
and refresh the mapping; resolve every line by lookup and drop the
unresolved. -/
def remapSales (S : Store) (salt : Nat) (lines : List SLine) :
    List SLine × Store :=
  if lines.any (fun l => l.email.isNone) then
    (resolveAgainst ((stubEmailList salt lines).foldl insertStub S)
        (stubLines salt lines),
      (stubEmailList salt lines).foldl insertStub S)
  else (resolveAgainst S lines, S)

/-! ## Orders and order items (`load_orders_and_items`) -/

/-- An order as built in memory before insertion. -/
structure OrderB where
  id : Nat
  cid : Nat
  date : Option String
  total : ℚ
deriving DecidableEq

/-- `groupby("transaction_id")` keys: distinct non-null transaction
ids, ascending (pandas sorts group keys). -/
def orderKeys (R : List SLine) : List Nat :=
  (dedupFull (R.filterMap (fun l => l.tid))).insertionSort (· ≤ ·)

def groupOf (R : List SLine) (t : Nat) : List SLine :=
  R.filter (fun l => l.tid = some t)

/-- One aggregated order: `customer_id`/`transaction_date` use pandas
`"first"` aggregation (first **non-null** entry; `customer_id` is never
null after resolution), `subtotal` is summed. -/
def buildOrder (R : List SLine) (t : Nat) : OrderB :=
  let g := groupOf R t
  { id := t
    cid := ((g.head?).map (fun l => l.cid)).getD 0
    date := (g.filterMap (fun l => l.date)).head?
    total := (g.map (fun l => l.subtotal)).sum }

def buildOrders (R : List SLine) : List OrderB :=
  (orderKeys R).map (buildOrder R)

/-- Order insert: explicit id, `ON CONFLICT (order_id) DO NOTHING`,
`status` written as `'Completed'`, NOT NULL date, FK to customers. -/
def insertOrder (o : OrderB) (S : Store) : Except String Store :=
  match o.date with
  | none => .error "orders: null order_date"
  | some d =>
      if ¬ validIsoDate d then .error "orders: bad date"
      else if o.id ∈ orderIds S then .ok S
      else if o.cid ∉ customerIds S then .error "orders: fk customer"
      else .ok { S with orders := S.orders ++ [⟨o.id, o.cid, d, o.total, "Completed"⟩] }

/-- Order-item insert: auto id, FKs to orders and products. -/
def insertItemLine (l : SLine) (S : Store) : Except String Store :=
  if l.tid.getD 0 ∉ orderIds S then .error "items: fk order"
  else if l.pid ∉ productIds S then .error "items: fk product"
  else .ok { S with items :=
    S.items ++ [⟨freshId (S.items.map (fun it => it.id)), l.tid.getD 0, l.pid,
      l.qty, l.price, l.subtotal⟩] }

/-- The candidate item rows: one per resolved sales line, filtered
(after re-reading the store) to transaction ids actually present among
the committed orders. -/
def itemCandidates (R : List SLine) (S : Store) : List SLine :=
  R.filter (fun l =>
    match l.tid with
    | some t => t ∈ orderIds S
    | none => false)

/-- `load_orders_and_items`: insert the aggregated orders and commit;
re-read the set of order ids actually present; filter candidate items
to that set; insert the items and commit.  A failure in the item batch
keeps the committed orders. -/
def loadOrdersAndItems (R : List SLine) (S : Store) : Store × Option String :=
  match insertList insertOrder (buildOrders R) S with
  | .error e => (S, some e)
  | .ok S1 =>
      match insertList insertItemLine (itemCandidates R S1) S1 with
      | .error e => (S1, some e)
      | .ok S2 => (S2, none)

/-! ## Extraction checks and orchestration (`run`) -/

def requiredCustomerColumns : List String :=
  ["first_name", "last_name", "email", "phone", "city", "registration_date",
   "customer_id"]

def requiredProductColumns : List String :=
  ["product_name", "category", "price", "stock_quantity"]

def requiredSalesColumns : List String :=
  ["transaction_id", "transaction_date", "customer_id", "product_id",
   "quantity", "unit_price"]

def missingColumns (req cols : List String) : List String :=
  req.filter (fun c => c ∉ cols)

/-- One tabular input file: its column list and its rows. -/
structure Input where
  customersCols : List String
  customers : List RawCustomer
  productsCols : List String
  products : List RawProduct
  salesCols : List String
  sales : List RawSales

/-- `assert_required_columns` over the three files, in source order;
the first violation raises. -/
def extractCheck (inp : Input) : Option String :=
  if ¬ (missingColumns requiredCustomerColumns inp.customersCols).isEmpty then
    some "customers_raw.csv: missing required columns"
  else if ¬ (missingColumns requiredProductColumns inp.productsCols).isEmpty then
    some "products_raw.csv: missing required columns"
  else if ¬ (missingColumns requiredSalesColumns inp.salesCols).isEmpty then
    some "sales_raw.csv: missing required columns"
  else none

/-- Outcome of a run: the store as committed (also on abort), the
error if any, and whether the store connection was ever opened. -/
structure RunResult where
  store : Store
  error : Option String
  connOpened : Bool
deriving DecidableEq

/-- The load phase of a run, on the already-transformed collections:
customers, products, identity resolution, orders, items, in that
order, each stage committing independently. -/
def loadPhase (T : List TCustomer) (P : List TProduct) (L : List SLine)
    (salt : Nat) (S : Store) : RunResult :=
  match upsertCustomers T S with
  | .error e => ⟨S, some e, true⟩
  | .ok S1 =>
      match loadProducts P S1 with
      | .error e => ⟨S1, some e, true⟩
      | .ok S2 =>
          let rs := remapSales S2 salt L
          let oi := loadOrdersAndItems rs.1 rs.2
          ⟨oi.1, oi.2, true⟩

/-- `run()`: extract & transform, then load in dependency order.  Each
stage commits independently; a failing stage aborts the run but keeps
the previously committed stages. -/
def runPipeline (inp : Input) (salt : Nat) (S : Store) : RunResult :=
  match extractCheck inp with
  | some e => ⟨S, some e, false⟩
  | none =>
      let T := transformCustomers inp.customers salt
      let P := transformProducts (inp.productsCols.contains "product_id") inp.products
      loadPhase T P (stagedSales inp.sales T) salt S

/-! # Basic list lemmas shared by the verified properties -/

theorem mem_of_mem_dedupFullAux [DecidableEq α] {seen l : List α} {a : α}
    (h : a ∈ dedupFullAux seen l) : a ∈ l := by
  induction l generalizing seen with
  | nil => simp [dedupFullAux] at h
  | cons b rest ih =>
      unfold dedupFullAux at h
      split at h
      · exact List.mem_cons_of_mem _ (ih h)
      · rcases List.mem_cons.mp h with rfl | h'
        · exact List.mem_cons_self _ _
        · exact List.mem_cons_of_mem _ (ih h')

theorem mem_dedupFullAux_of [DecidableEq α] {seen l : List α} {a : α}
    (ha : a ∈ l) (hs : a ∉ seen) : a ∈ dedupFullAux seen l := by
  induction l generalizing seen with
  | nil => cases ha
  | cons b rest ih =>
      unfold dedupFullAux
      split
      · rcases List.mem_cons.mp ha with rfl | h'
        · exact absurd (by assumption) hs
        · exact ih h' hs
      · rcases List.mem_cons.mp ha with rfl | h'
        · exact List.mem_cons_self _ _
        · by_cases hab : a = b
          · subst hab; exact List.mem_cons_self _ _
          · exact List.mem_cons_of_mem _
              (ih h' (by simp [hab, hs, List.mem_cons]))

theorem mem_dedupFull_iff [DecidableEq α] (l : List α) (a : α) :
    a ∈ dedupFull l ↔ a ∈ l :=
  ⟨mem_of_mem_dedupFullAux, fun h => mem_dedupFullAux_of h (by simp)⟩

theorem dedupFullAux_not_mem_seen [DecidableEq α] {seen l : List α} :
    ∀ a ∈ dedupFullAux seen l, a ∉ seen := by
  induction l generalizing seen with
  | nil => intro a ha; simp [dedupFullAux] at ha
  | cons b rest ih =>
      intro a ha
      unfold dedupFullAux at ha
      split at ha
      · exact ih a ha
      · rcases List.mem_cons.mp ha with rfl | h'
        · assumption
        · intro hseen
          exact ih a h' (List.mem_cons_of_mem _ hseen)

theorem dedupFullAux_nodup [DecidableEq α] (seen l : List α) :
    (dedupFullAux seen l).Nodup := by
  induction l generalizing seen with
  | nil => simp [dedupFullAux]
  | cons b rest ih =>
      unfold dedupFullAux
      split
      · exact ih _
      · refine List.nodup_cons.mpr ⟨?_, ih _⟩
        intro hb
        exact dedupFullAux_not_mem_seen b hb (List.mem_cons_self _ _)

theorem dedupFull_nodup [DecidableEq α] (l : List α) : (dedupFull l).Nodup :=
  dedupFullAux_nodup [] l

theorem countP_eq_one_of_nodup [DecidableEq α] {l : List α} (hnd : l.Nodup)
    {a : α} (ha : a ∈ l) : l.countP (fun x => decide (x = a)) = 1 := by
  induction l with
  | nil => cases ha
  | cons b rest ih =>
      rcases List.nodup_cons.mp hnd with ⟨hb, hrest⟩
      rcases List.mem_cons.mp ha with rfl | h'
      · have h0 : List.countP (fun x => decide (x = a)) rest = 0 :=
          List.countP_eq_zero.mpr (by
            intro x hx
            simp only [decide_eq_true_eq]
            rintro rfl
            exact hb hx)
        rw [List.countP_cons_of_pos _ _ (by simp), h0]
      · rw [List.countP_cons_of_neg, ih hrest h']
        simp only [decide_eq_true_eq]
        rintro rfl
        exact hb h'

/-! # C5 — `clean_date` on the exact ISO pattern -/

/-- C5: the exact-ISO fast path of `clean_date` returns the input
unchanged on a *regex* match only.  `clean_date("2023-07-04")` is
returned unchanged as the claim states, but `clean_date("2023-02-30")`
— an invalid calendar date — is **also** returned unchanged instead of
absent, because the fast path never validates the calendar; this
contradicts the claim and the function's own documentation ("Returns
None for invalid/empty dates"). -/
theorem clean_date_iso_fastpath_behavior :
    cleanDate (RV.str "2023-02-30") = some "2023-02-30" ∧
    cleanDate (RV.str "2023-07-04") = some "2023-07-04" ∧
    isIsoShape "2023-02-30" = true ∧
    validYMD 2023 2 30 = false := by decide

/-! # C9 — missing required column aborts before any load -/

/-- C9: if any required column is missing from any of the three input
files, the run fails during extraction: the store is unchanged, an
error is reported, and the store connection was never opened. -/
theorem missing_column_aborts_before_load (inp : Input) (salt : Nat) (S : Store)
    (h : missingColumns requiredCustomerColumns inp.customersCols ≠ [] ∨
         missingColumns requiredProductColumns inp.productsCols ≠ [] ∨
         missingColumns requiredSalesColumns inp.salesCols ≠ []) :
    (runPipeline inp salt S).store = S ∧
    (runPipeline inp salt S).error.isSome = true ∧
    (runPipeline inp salt S).connOpened = false := by
  have hx : ∃ e, extractCheck inp = some e := by
    unfold extractCheck
    by_cases h1 : (missingColumns requiredCustomerColumns inp.customersCols).isEmpty
    · by_cases h2 : (missingColumns requiredProductColumns inp.productsCols).isEmpty
      · by_cases h3 : (missingColumns requiredSalesColumns inp.salesCols).isEmpty
        · exfalso
          rcases h with h | h | h
          · exact h (List.isEmpty_iff.mp h1)
          · exact h (List.isEmpty_iff.mp h2)
          · exact h (List.isEmpty_iff.mp h3)
        · exact ⟨"sales_raw.csv: missing required columns", by simp [h1, h2, h3]⟩
      · exact ⟨"products_raw.csv: missing required columns", by simp [h1, h2]⟩
    · exact ⟨"customers_raw.csv: missing required columns", by simp [h1]⟩
  obtain ⟨e, he⟩ := hx
  simp [runPipeline, he]

/-- An input whose customers file lacks most required columns. -/
def exInputMissing : Input :=
  ⟨["first_name"], [], requiredProductColumns, [], requiredSalesColumns, []⟩

theorem missing_column_aborts_before_load_witness :
    missingColumns requiredCustomerColumns exInputMissing.customersCols ≠ [] ∧
    ((runPipeline exInputMissing 0 emptyStore).store = emptyStore ∧
     (runPipeline exInputMissing 0 emptyStore).error.isSome = true ∧
     (runPipeline exInputMissing 0 emptyStore).connOpened = false) :=
  ⟨by decide, missing_column_aborts_before_load exInputMissing 0 emptyStore
    (Or.inl (by decide))⟩

/-! # C4 — which sales lines receive a synthesized stub customer -/

/-- A store already holding one customer, used to exhibit the
present-but-unmapped email case. -/
def mappedStore : Store :=
  ⟨[⟨1, RV.str "Ann", RV.str "Lee", "a@b.com", none, RV.na, none⟩], [], [], []⟩

/-- A resolved-stage sales line whose email is present but absent from
the store's mapping. -/
def unmappedLine : SLine :=
  ⟨some 5, 5, 1, some "2023-02-01", 1, 3, 3, some "c@d.com"⟩

/-- C4 counterexample: for a sales line whose email is present but not
in the store's email→durable-id mapping, the resolver does **not**
synthesize a placeholder, insert a Guest row, or retry — the line is
simply dropped and the store is left untouched.  The claim's "or whose
email is not in the store's mapping" clause is false on the code. -/
theorem unmapped_email_not_stubbed :
    (remapSales mappedStore 0 [unmappedLine]).1 = [] ∧
    (remapSales mappedStore 0 [unmappedLine]).2 = mappedStore ∧
    (unmappedLine.email.isSome = true ∧
      lookupEmail mappedStore "c@d.com" = none) := by decide

/-- C4 amended: the stub-synthesis/insert/refresh/retry path runs only
for lines whose email is **absent**.  When every line carries an email,
the resolver inserts nothing and resolves each line by a single lookup
against the existing mapping, dropping the unmapped ones. -/
theorem resolver_stubs_only_absent (S : Store) (salt : Nat) (lines : List SLine)
    (h : ∀ l ∈ lines, l.email.isSome) :
    (remapSales S salt lines).2 = S ∧
    (remapSales S salt lines).1 = lines.filterMap (fun l =>
      match l.email with
      | none => none
      | some e => (lookupEmail S e).map (fun cid => { l with cid := cid })) := by
  have hAny : (lines.any (fun l => l.email.isNone)) = false := by
    rw [List.any_eq_false]
    intro l hl
    rcases Option.isSome_iff_exists.mp (h l hl) with ⟨e, he⟩
    simp [he]
  unfold remapSales resolveAgainst
  simp [hAny]

theorem resolver_stubs_only_absent_witness :
    (∀ l ∈ [unmappedLine], l.email.isSome) ∧
    ((remapSales mappedStore 7 [unmappedLine]).2 = mappedStore ∧
     (remapSales mappedStore 7 [unmappedLine]).1 = [unmappedLine].filterMap (fun l =>
       match l.email with
       | none => none
       | some e => (lookupEmail mappedStore e).map (fun cid => { l with cid := cid }))) :=
  ⟨by decide, resolver_stubs_only_absent mappedStore 7 [unmappedLine] (by decide)⟩

/-! # C8 — product price/stock coercion -/

/-- A raw product row with a parseable negative price and an
unparseable stock quantity. -/
def negPriceProduct : RawProduct :=
  ⟨RV.str "2", RV.str "Thing", RV.na, RV.str "-5", RV.str "abc"⟩

/-- C8 counterexample: the transform keeps a parseable negative raw
price as-is, so the claimed invariant "price ≥ 0 after the transform"
is false: `pd.to_numeric` substitutes only on parse *failure* and never
clamps sign. -/
theorem negative_price_survives :
    (transformProducts true [negPriceProduct]).map (fun p => p.price) = [-5] ∧
    ¬ ((0 : ℚ) ≤ -5) := by decide

/-- C8 amended: after the product transform, the price is exactly the
parsed numeric value with `0.0` substituted precisely on parse failure
(no sign constraint), and the stock quantity is the parsed value
truncated to an integer with `0` substituted on parse failure. -/
theorem product_price_stock_defaults (hasPid : Bool) (rows : List RawProduct)
    (p : TProduct) (hp : p ∈ transformProducts hasPid rows) :
    ∃ r ∈ rows,
      p.price = ((parseNum r.price).getD 0) ∧
      (parseNum r.price = none → p.price = 0) ∧
      p.stock = (((parseNum r.stock_quantity).map truncToInt).getD 0) ∧
      (parseNum r.stock_quantity = none → p.stock = 0) := by
  unfold transformProducts at hp
  rcases List.mem_map.mp hp with ⟨q, hq, rfl⟩
  have hq' := mem_of_mem_dedupFullAux hq
  rcases List.mem_map.mp hq' with ⟨r, hr, rfl⟩
  refine ⟨r, hr, ?_, ?_, ?_, ?_⟩ <;>
    cases hasPid <;>
      simp_all [cleanProductRow]

theorem product_price_stock_defaults_witness :
    (transformProducts true [negPriceProduct]).length = 1 ∧
    ∀ p ∈ transformProducts true [negPriceProduct],
      ∃ r ∈ [negPriceProduct],
        p.price = ((parseNum r.price).getD 0) ∧
        (parseNum r.price = none → p.price = 0) ∧
        p.stock = (((parseNum r.stock_quantity).map truncToInt).getD 0) ∧
        (parseNum r.stock_quantity = none → p.stock = 0) :=
  ⟨by decide, fun p hp => product_price_stock_defaults true [negPriceProduct] p hp⟩

/-! # C6 — one order per transaction group -/

/-- Two lines of one transaction, the first with an unparseable date. -/
def lineNoDate : SLine := ⟨some 5, 1, 1, none, 1, 2, 2, none⟩

def lineWithDate : SLine := ⟨some 5, 1, 1, some "2023-01-15", 1, 3, 3, none⟩

/-- C6 counterexample: the aggregated order's date is the group's first
**non-null** date (pandas `"first"` aggregation skips nulls), not the
first line's date: here the first line's date is absent while the built
order carries the second line's date. -/
theorem order_date_not_first_line :
    (buildOrders [lineNoDate, lineWithDate]).map (fun o => o.date) =
      [some "2023-01-15"] ∧
    ([lineNoDate, lineWithDate].head?.map (fun l => l.date)) = some none ∧
    some "2023-01-15" ≠ (none : Option String) := by decide

/-- C6 amended: for every non-empty group of resolved lines sharing a
transaction id, exactly one order is built; its id is the transaction
id, its customer is the group's first line's resolved customer, its
date is the group's first **non-absent** date, and its total is the sum
of the group's subtotals. -/
theorem order_grouping (R : List SLine) (t : Nat) (hg : groupOf R t ≠ []) :
    ((buildOrders R).countP (fun o => decide (o.id = t)) = 1) ∧
    ∀ o ∈ buildOrders R, o.id = t →
      o.cid = ((groupOf R t).head hg).cid ∧
      o.date = ((groupOf R t).filterMap (fun l => l.date)).head? ∧
      o.total = ((groupOf R t).map (fun l => l.subtotal)).sum := by
  have hperm : List.Perm (orderKeys R) (dedupFull (R.filterMap (fun l => l.tid))) :=
    List.perm_insertionSort _ _
  have hmem : t ∈ orderKeys R := by
    rw [hperm.mem_iff, mem_dedupFull_iff]
    rcases List.exists_cons_of_ne_nil hg with ⟨l, ls, hcons⟩
    have : l ∈ groupOf R t := by rw [hcons]; exact List.mem_cons_self _ _
    rcases List.mem_filter.mp this with ⟨hlR, hlt⟩
    exact List.mem_filterMap.mpr ⟨l, hlR, by simpa using hlt⟩
  have hnd : (orderKeys R).Nodup := hperm.nodup_iff.mpr (dedupFull_nodup _)
  constructor
  · unfold buildOrders
    rw [List.countP_map]
    have : ((fun o => decide (o.id = t)) ∘ buildOrder R) =
        (fun k => decide (k = t)) := by
      funext k; rfl
    rw [this]
    exact countP_eq_one_of_nodup hnd hmem
  · intro o ho hot
    rcases List.mem_map.mp ho with ⟨k, _, rfl⟩
    have hk : k = t := hot
    subst hk
    refine ⟨?_, rfl, rfl⟩
    show ((groupOf R k).head?.map (fun l => l.cid)).getD 0 = _
    rw [List.head?_eq_head hg]
    rfl

theorem order_grouping_witness :
    ∃ hg : groupOf [lineNoDate, lineWithDate] 5 ≠ [],
      ((buildOrders [lineNoDate, lineWithDate]).countP
          (fun o => decide (o.id = 5)) = 1) ∧
      ∀ o ∈ buildOrders [lineNoDate, lineWithDate], o.id = 5 →
        o.cid = ((groupOf [lineNoDate, lineWithDate] 5).head hg).cid ∧
        o.date = ((groupOf [lineNoDate, lineWithDate] 5).filterMap
          (fun l => l.date)).head? ∧
        o.total = ((groupOf [lineNoDate, lineWithDate] 5).map
          (fun l => l.subtotal)).sum := by
  have hg : groupOf [lineNoDate, lineWithDate] 5 ≠ [] := by decide
  exact ⟨hg, order_grouping [lineNoDate, lineWithDate] 5 hg⟩

/-! # Store-invariant machinery

Preservation of a store predicate through the loaders, shared by the
properties about the final store state. -/

theorem insertList_preserve {α : Type} {ins : α → Store → Except String Store}
    (Q : Store → Prop)
    (hstep : ∀ a S S', ins a S = .ok S' → Q S → Q S') :
    ∀ {l : List α} {S S'}, insertList ins l S = .ok S' → Q S → Q S' := by
  intro l
  induction l with
  | nil =>
      intro S S' h hq
      unfold insertList at h
      cases h
      exact hq
  | cons a rest ih =>
      intro S S' h hq
      unfold insertList at h
      split at h
      · cases h
      · rename_i S1 hins
        exact ih h (hstep a S S1 hins hq)

theorem mem_map_mono {α β : Type} {A B : List α} (f : α → β)
    (h : ∀ x ∈ A, x ∈ B) : ∀ y ∈ A.map f, y ∈ B.map f := by
  intro y hy
  rcases List.mem_map.mp hy with ⟨x, hx, rfl⟩
  exact List.mem_map_of_mem f (h x hx)

/-- Customer inserts leave products/orders/items untouched and only
extend the customers table. -/
theorem insertCustomerWithId_shape {c : TCustomer} {cid : Nat} {S S' : Store}
    (h : insertCustomerWithId c cid S = .ok S') :
    S'.products = S.products ∧ S'.orders = S.orders ∧ S'.items = S.items ∧
    (∀ x ∈ S.customers, x ∈ S'.customers) := by
  unfold insertCustomerWithId at h
  split at h
  · cases h
  · split at h
    · cases h
    · split at h
      · cases h
        exact ⟨rfl, rfl, rfl, fun x hx => hx⟩
      · split at h
        · cases h
        · cases h
          exact ⟨rfl, rfl, rfl, fun x hx => List.mem_append_left _ hx⟩

theorem insertCustomerAuto_shape {c : TCustomer} {S S' : Store}
    (h : insertCustomerAuto c S = .ok S') :
    S'.products = S.products ∧ S'.orders = S.orders ∧ S'.items = S.items ∧
    (∀ x ∈ S.customers, x ∈ S'.customers) := by
  unfold insertCustomerAuto at h
  split at h
  · cases h
  · split at h
    · cases h
    · split at h
      · cases h
        exact ⟨rfl, rfl, rfl, fun x hx => hx⟩
      · cases h
        exact ⟨rfl, rfl, rfl, fun x hx => List.mem_append_left _ hx⟩

theorem insertStub_shape (S : Store) (em : String) :
    (insertStub S em).products = S.products ∧
    (insertStub S em).orders = S.orders ∧
    (insertStub S em).items = S.items ∧
    (∀ x ∈ S.customers, x ∈ (insertStub S em).customers) := by
  unfold insertStub
  split
  · exact ⟨rfl, rfl, rfl, fun x hx => hx⟩
  · exact ⟨rfl, rfl, rfl, fun x hx => List.mem_append_left _ hx⟩

/-- Product inserts leave customers/orders/items untouched and only
extend the products table. -/
theorem insertProductWithId_shape {p : TProduct} {S S' : Store}
    (h : insertProductWithId p S = .ok S') :
    S'.customers = S.customers ∧ S'.orders = S.orders ∧ S'.items = S.items ∧
    (∀ x ∈ S.products, x ∈ S'.products) := by
  unfold insertProductWithId at h
  split at h
  · cases h
  · split at h
    · cases h
      exact ⟨rfl, rfl, rfl, fun x hx => hx⟩
    · cases h
      exact ⟨rfl, rfl, rfl, fun x hx => List.mem_append_left _ hx⟩

theorem insertProductAuto_shape {p : TProduct} {S S' : Store}
    (h : insertProductAuto p S = .ok S') :
    S'.customers = S.customers ∧ S'.orders = S.orders ∧ S'.items = S.items ∧
    (∀ x ∈ S.products, x ∈ S'.products) := by
  unfold insertProductAuto at h
  split at h
  · cases h
  · cases h
    exact ⟨rfl, rfl, rfl, fun x hx => List.mem_append_left _ hx⟩

/-- An order insert leaves the other tables untouched and either skips
or appends one `'Completed'` row whose customer FK was checked. -/
theorem insertOrder_shape {o : OrderB} {S S' : Store}
    (h : insertOrder o S = .ok S') :
    S'.customers = S.customers ∧ S'.products = S.products ∧ S'.items = S.items ∧
    (S'.orders = S.orders ∨
      ∃ d, S'.orders = S.orders ++
        [⟨o.id, o.cid, d, o.total, "Completed"⟩] ∧ o.cid ∈ customerIds S) := by
  unfold insertOrder at h
  split at h
  · cases h
  · split at h
    · cases h
    · split at h
      · cases h
        exact ⟨rfl, rfl, rfl, Or.inl rfl⟩
      · split at h
        · cases h
        · cases h
          refine ⟨rfl, rfl, rfl, Or.inr ⟨_, rfl, ?_⟩⟩
          simp_all

/-- An item insert leaves the other tables untouched and appends one
row whose two FKs were checked. -/
theorem insertItemLine_shape {l : SLine} {S S' : Store}
    (h : insertItemLine l S = .ok S') :
    S'.customers = S.customers ∧ S'.products = S.products ∧ S'.orders = S.orders ∧
    ∃ r : ItemRow, S'.items = S.items ++ [r] ∧
      r.oid ∈ orderIds S ∧ r.pid ∈ productIds S := by
  unfold insertItemLine at h
  split at h
  · cases h
  · split at h
    · cases h
    · cases h
      refine ⟨rfl, rfl, rfl, _, rfl, ?_, ?_⟩ <;> simp_all

/-- Preservation of a store predicate through the whole load phase,
given preservation through each single insert. -/
theorem loadPhase_preserve (Q : Store → Prop)
    (hcW : ∀ c cid S S', insertCustomerWithId c cid S = .ok S' → Q S → Q S')
    (hcA : ∀ c S S', insertCustomerAuto c S = .ok S' → Q S → Q S')
    (hpW : ∀ p S S', insertProductWithId p S = .ok S' → Q S → Q S')
    (hpA : ∀ p S S', insertProductAuto p S = .ok S' → Q S → Q S')
    (hstub : ∀ S em, Q S → Q (insertStub S em))
    (hord : ∀ o S S', insertOrder o S = .ok S' → Q S → Q S')
    (hitm : ∀ l S S', insertItemLine l S = .ok S' → Q S → Q S')
    (T : List TCustomer) (P : List TProduct) (L : List SLine)
    (salt : Nat) (S : Store) (hq : Q S) :
    Q (loadPhase T P L salt S).store := by
  have hfold : ∀ (ems : List String) (X : Store), Q X → Q (ems.foldl insertStub X) := by
    intro ems
    induction ems with
    | nil => intro X hx; exact hx
    | cons em rest ih => intro X hx; exact ih _ (hstub X em hx)
  unfold loadPhase
  split
  · exact hq
  · rename_i S1 hu
    have hq1 : Q S1 := by
      unfold upsertCustomers at hu
      split at hu
      · cases hu
      · rename_i S0 h0
        exact insertList_preserve Q hcA hu
          (insertList_preserve Q (fun c => hcW c (c.cid.getD 0)) h0 hq)
    split
    · exact hq1
    · rename_i S2 hp
      have hq2 : Q S2 := by
        unfold loadProducts at hp
        split at hp
        · cases hp
        · rename_i S0 h0
          exact insertList_preserve Q hpA hp (insertList_preserve Q hpW h0 hq1)
      have hq3 : Q (remapSales S2 salt L).2 := by
        unfold remapSales
        split
        · exact hfold _ _ hq2
        · exact hq2
      show Q (loadOrdersAndItems (remapSales S2 salt L).1 (remapSales S2 salt L).2).1
      unfold loadOrdersAndItems
      split
      · exact hq3
      · rename_i S3 h3
        have hq4 : Q S3 := insertList_preserve Q hord h3 hq3
        split
        · exact hq4
        · rename_i S4 h4
          exact insertList_preserve Q hitm h4 hq4

theorem runPipeline_preserve (Q : Store → Prop)
    (hcW : ∀ c cid S S', insertCustomerWithId c cid S = .ok S' → Q S → Q S')
    (hcA : ∀ c S S', insertCustomerAuto c S = .ok S' → Q S → Q S')
    (hpW : ∀ p S S', insertProductWithId p S = .ok S' → Q S → Q S')
    (hpA : ∀ p S S', insertProductAuto p S = .ok S' → Q S → Q S')
    (hstub : ∀ S em, Q S → Q (insertStub S em))
    (hord : ∀ o S S', insertOrder o S = .ok S' → Q S → Q S')
    (hitm : ∀ l S S', insertItemLine l S = .ok S' → Q S → Q S')
    (inp : Input) (salt : Nat) (S : Store) (hq : Q S) :
    Q (runPipeline inp salt S).store := by
  unfold runPipeline
  split
  · exact hq
  · exact loadPhase_preserve Q hcW hcA hpW hpA hstub hord hitm _ _ _ _ _ hq

/-! # Concrete input for witnesses -/

def exCustomer : RawCustomer :=
  ⟨RV.str "1", RV.str "Alice", RV.str "Smith", RV.str "a@b.com",
   RV.str "9876543210", RV.str "Pune", RV.str "2023-01-10"⟩

def exProduct : RawProduct :=
  ⟨RV.str "1", RV.str "Widget", RV.str "gadgets", RV.str "10.50", RV.str "5"⟩

def exSales : RawSales :=
  ⟨RV.str "1", RV.str "2023-02-01", RV.str "1", RV.str "1", RV.str "2",
   RV.str "10.50"⟩

def exInput : Input :=
  ⟨requiredCustomerColumns, [exCustomer],
   "product_id" :: requiredProductColumns, [exProduct],
   requiredSalesColumns, [exSales]⟩

/-! # C10 — pipeline-inserted orders always carry status 'Completed' -/

/-- C10: every order row the pipeline inserts carries status
`'Completed'` (the insert statement supplies the literal), so the
schema default `'Pending'` is never observed on a pipeline-inserted
row. -/
theorem orders_inserted_completed (inp : Input) (salt : Nat) (S : Store)
    (h : ∀ o ∈ S.orders, o.status = "Completed") :
    ∀ o ∈ (runPipeline inp salt S).store.orders,
      o.status = "Completed" ∧ o.status ≠ ordersStatusDefault := by
  have hmain : ∀ o ∈ (runPipeline inp salt S).store.orders, o.status = "Completed" := by
    refine runPipeline_preserve (fun X => ∀ o ∈ X.orders, o.status = "Completed")
      ?_ ?_ ?_ ?_ ?_ ?_ ?_ inp salt S h
    · intro c cid S1 S2 hins hq
      rw [(insertCustomerWithId_shape hins).2.1]
      exact hq
    · intro c S1 S2 hins hq
      rw [(insertCustomerAuto_shape hins).2.1]
      exact hq
    · intro p S1 S2 hins hq
      rw [(insertProductWithId_shape hins).2.1]
      exact hq
    · intro p S1 S2 hins hq
      rw [(insertProductAuto_shape hins).2.1]
      exact hq
    · intro S1 em hq
      rw [(insertStub_shape S1 em).2.1]
      exact hq
    · intro o S1 S2 hins hq
      rcases (insertOrder_shape hins).2.2.2 with heq | ⟨d, heq, _⟩
      · rw [heq]; exact hq
      · rw [heq]
        intro x hx
        rcases List.mem_append.mp hx with hx | hx
        · exact hq x hx
        · rcases List.mem_singleton.mp hx with rfl
          rfl
    · intro l S1 S2 hins hq
      rw [(insertItemLine_shape hins).2.2.1]
      exact hq
  intro o ho
  refine ⟨hmain o ho, ?_⟩
  rw [hmain o ho]
  decide

theorem orders_inserted_completed_witness :
    (runPipeline exInput 1 emptyStore).store.orders.length = 1 ∧
    ∀ o ∈ (runPipeline exInput 1 emptyStore).store.orders,
      o.status = "Completed" ∧ o.status ≠ ordersStatusDefault :=
  ⟨by decide, orders_inserted_completed exInput 1 emptyStore (by decide)⟩

/-! # C1 — referential integrity of the final store state -/

/-- Referential integrity of a store: item rows reference existing
orders and products; order rows reference existing customers. -/
def Integrity (S : Store) : Prop :=
  (∀ it ∈ S.items, it.oid ∈ orderIds S ∧ it.pid ∈ productIds S) ∧
  (∀ o ∈ S.orders, o.cid ∈ customerIds S)

instance (S : Store) : Decidable (Integrity S) := by
  unfold Integrity
  infer_instance

/-- C1: the pipeline preserves referential integrity of the store —
every persisted order_items row references an order actually present
(guaranteed by the existence re-check before item insertion together
with the FK constraint) and a product present in products, and every
persisted orders row references an existing customer (resolution
assigns only durable ids read back from the store).  This holds for the
final store of any run, aborted ones included. -/
theorem referential_integrity (inp : Input) (salt : Nat) (S : Store)
    (h : Integrity S) : Integrity (runPipeline inp salt S).store := by
  refine runPipeline_preserve Integrity ?_ ?_ ?_ ?_ ?_ ?_ ?_ inp salt S h
  · intro c cid S1 S2 hins hq
    obtain ⟨hp, ho, hi, hc⟩ := insertCustomerWithId_shape hins
    refine ⟨?_, ?_⟩
    · intro it hit
      rw [hi] at hit
      have := hq.1 it hit
      rw [orderIds, productIds, ho, hp]
      exact this
    · intro o hoo
      rw [ho] at hoo
      exact mem_map_mono _ hc _ (hq.2 o hoo)
  · intro c S1 S2 hins hq
    obtain ⟨hp, ho, hi, hc⟩ := insertCustomerAuto_shape hins
    refine ⟨?_, ?_⟩
    · intro it hit
      rw [hi] at hit
      have := hq.1 it hit
      rw [orderIds, productIds, ho, hp]
      exact this
    · intro o hoo
      rw [ho] at hoo
      exact mem_map_mono _ hc _ (hq.2 o hoo)
  · intro p S1 S2 hins hq
    obtain ⟨hc, ho, hi, hp⟩ := insertProductWithId_shape hins
    refine ⟨?_, ?_⟩
    · intro it hit
      rw [hi] at hit
      obtain ⟨h1, h2⟩ := hq.1 it hit
      refine ⟨?_, mem_map_mono _ hp _ h2⟩
      rw [orderIds, ho]
      exact h1
    · intro o hoo
      rw [ho] at hoo
      rw [customerIds, hc]
      exact hq.2 o hoo
  · intro p S1 S2 hins hq
    obtain ⟨hc, ho, hi, hp⟩ := insertProductAuto_shape hins
    refine ⟨?_, ?_⟩
    · intro it hit
      rw [hi] at hit
      obtain ⟨h1, h2⟩ := hq.1 it hit
      refine ⟨?_, mem_map_mono _ hp _ h2⟩
      rw [orderIds, ho]
      exact h1
    · intro o hoo
      rw [ho] at hoo
      rw [customerIds, hc]
      exact hq.2 o hoo
  · intro S1 em hq
    obtain ⟨hp, ho, hi, hc⟩ := insertStub_shape S1 em
    refine ⟨?_, ?_⟩
    · intro it hit
      rw [hi] at hit
      have := hq.1 it hit
      rw [orderIds, productIds, ho, hp]
      exact this
    · intro o hoo
      rw [ho] at hoo
      exact mem_map_mono _ hc _ (hq.2 o hoo)
  · intro o S1 S2 hins hq
    obtain ⟨hc, hp, hi, hor⟩ := insertOrder_shape hins
    rcases hor with heq | ⟨d, heq, hfk⟩
    · refine ⟨?_, ?_⟩
      · intro it hit
        rw [hi] at hit
        obtain ⟨h1, h2⟩ := hq.1 it hit
        rw [orderIds, productIds, heq, hp]
        exact ⟨h1, h2⟩
      · intro x hx
        rw [heq] at hx
        rw [customerIds, hc]
        exact hq.2 x hx
    · refine ⟨?_, ?_⟩
      · intro it hit
        rw [hi] at hit
        obtain ⟨h1, h2⟩ := hq.1 it hit
        refine ⟨?_, ?_⟩
        · rw [orderIds, heq, List.map_append]
          exact List.mem_append_left _ h1
        · rw [productIds, hp]
          exact h2
      · intro x hx
        rw [heq] at hx
        rw [customerIds, hc]
        rcases List.mem_append.mp hx with hx | hx
        · exact hq.2 x hx
        · rcases List.mem_singleton.mp hx with rfl
          exact hfk
  · intro l S1 S2 hins hq
    obtain ⟨hc, hp, ho, r, heq, hfo, hfp⟩ := insertItemLine_shape hins
    refine ⟨?_, ?_⟩
    · intro it hit
      rw [heq] at hit
      have hids : orderIds S2 = orderIds S1 ∧ productIds S2 = productIds S1 := by
        rw [orderIds, productIds, ho, hp]
        exact ⟨rfl, rfl⟩
      rw [hids.1, hids.2]
      rcases List.mem_append.mp hit with hit | hit
      · exact hq.1 it hit
      · rcases List.mem_singleton.mp hit with rfl
        exact ⟨hfo, hfp⟩
    · intro x hx
      rw [ho] at hx
      rw [customerIds, hc]
      exact hq.2 x hx

theorem referential_integrity_witness :
    Integrity emptyStore ∧
    ((runPipeline exInput 1 emptyStore).store.items.length = 1 ∧
      Integrity (runPipeline exInput 1 emptyStore).store) :=
  ⟨by decide, by decide,
    referential_integrity exInput 1 emptyStore (by decide)⟩

/-! # Character-level facts about canonicalization -/

theorem char_toNat_ofNat_small (n : Nat) (h : n < 55296) :
    (Char.ofNat n).toNat = n := by
  simp [Char.ofNat, Nat.isValidChar, h, Char.ofNatAux, Char.toNat, UInt32.toNat,
    BitVec.toNat_ofNatLt]

theorem char_eq_iff_toNat (a b : Char) : (a = b) ↔ a.toNat = b.toNat := by
  constructor
  · intro h; rw [h]
  · intro h
    exact Char.eq_of_val_eq (UInt32.eq_of_toBitVec_eq (BitVec.eq_of_toNat_eq h))

theorem isWhitespace_toNat (c : Char) : c.isWhitespace =
    (decide (c.toNat = 32) || decide (c.toNat = 9) ||
     decide (c.toNat = 13) || decide (c.toNat = 10)) := by
  simp only [Char.isWhitespace, char_eq_iff_toNat]
  rfl

/-- Lower-casing never changes whether a character is whitespace. -/
theorem isWs_lowerChar (c : Char) : isWs (lowerChar c) = isWs c := by
  unfold isWs lowerChar
  split
  · rename_i h
    have h1 : 65 ≤ c.toNat := h.1
    have h2 : c.toNat ≤ 90 := h.2
    have hv : (Char.ofNat (c.toNat + 32)).toNat = c.toNat + 32 :=
      char_toNat_ofNat_small _ (by omega)
    rw [isWhitespace_toNat, isWhitespace_toNat, hv]
    have e1 : (decide (c.toNat + 32 = 32) || decide (c.toNat + 32 = 9) ||
        decide (c.toNat + 32 = 13) || decide (c.toNat + 32 = 10)) = false := by
      simp only [Bool.or_eq_false_iff, decide_eq_false_iff_not]
      omega
    have e2 : (decide (c.toNat = 32) || decide (c.toNat = 9) ||
        decide (c.toNat = 13) || decide (c.toNat = 10)) = false := by
      simp only [Bool.or_eq_false_iff, decide_eq_false_iff_not]
      omega
    rw [e1, e2]
  · rfl

/-- Characters in the ASCII digit range, via `toNat`. -/
theorem isDigit_iff_toNat (c : Char) :
    c.isDigit = true ↔ (48 ≤ c.toNat ∧ c.toNat ≤ 57) := by
  unfold Char.isDigit
  rw [Bool.and_eq_true, decide_eq_true_eq, decide_eq_true_eq]
  exact Iff.rfl

/-- A digit character is neither whitespace nor upper-case. -/
theorem digit_not_ws_not_upper (c : Char) (h : c.isDigit = true) :
    isWs c = false ∧ lowerChar c = c := by
  obtain ⟨h1, h2⟩ := (isDigit_iff_toNat c).mp h
  constructor
  · unfold isWs
    rw [isWhitespace_toNat]
    simp only [Bool.or_eq_false_iff, decide_eq_false_iff_not]
    omega
  · unfold lowerChar
    rw [if_neg]
    intro hc
    have h3 : 65 ≤ c.toNat := hc.1
    omega

/-- The net effect of `canonicalize_email` on the character list:
lowercase every character and delete all whitespace (the strip is
subsumed by the whitespace deletion). -/
def caseWsCanon (s : String) : List Char :=
  (s.data.filter notWs).map lowerChar

theorem filter_dropWhile_notWs (l : List Char) :
    (l.dropWhile isWs).filter notWs = l.filter notWs := by
  induction l with
  | nil => rfl
  | cons a rest ih =>
      by_cases ha : isWs a = true
      · rw [List.dropWhile_cons_of_pos ha, ih,
          List.filter_cons_of_neg (by simp [notWs, ha])]
      · rw [List.dropWhile_cons_of_neg (by simp [ha])]

theorem filter_stripChars (l : List Char) :
    (stripChars l).filter notWs = l.filter notWs := by
  unfold stripChars
  rw [List.filter_reverse, filter_dropWhile_notWs, List.filter_reverse,
    filter_dropWhile_notWs, List.reverse_reverse]

theorem notWs_lowerChar (c : Char) : notWs (lowerChar c) = notWs c := by
  unfold notWs
  rw [isWs_lowerChar]

/-- `canonicalize_email` computed in one pass. -/
theorem canonEmailStr_eq (s : String) :
    canonEmailStr s =
      if (caseWsCanon s).isEmpty then none else some ⟨caseWsCanon s⟩ := by
  unfold canonEmailStr caseWsCanon
  rw [List.filter_map]
  rw [List.filter_congr (fun c _ => by
    show (notWs ∘ lowerChar) c = notWs c
    simp [Function.comp, notWs_lowerChar])]
  rw [filter_stripChars]

/-- Strings whose characters are neither whitespace nor upper-case are
fixed points of `canonicalize_email`. -/
theorem canonEmailStr_fixed (s : String) (hne : s.data ≠ [])
    (hall : ∀ c ∈ s.data, isWs c = false ∧ lowerChar c = c) :
    canonEmailStr s = some s := by
  have hfix : caseWsCanon s = s.data := by
    unfold caseWsCanon
    rw [List.filter_eq_self.mpr (fun c hc => by simp [notWs, (hall c hc).1])]
    have hmap : List.map lowerChar s.data = List.map id s.data :=
      List.map_congr_left (fun c hc => (hall c hc).2)
    rw [hmap, List.map_id]
  rw [canonEmailStr_eq, hfix]
  rw [if_neg (by simpa using hne)]

/-- Every character that `natDecimal` emits is a digit. -/
theorem natDecimalAux_isDigit (fuel : Nat) :
    ∀ (n : Nat) (acc : List Char), (∀ c ∈ acc, c.isDigit = true) →
    ∀ c ∈ natDecimalAux fuel n acc, c.isDigit = true := by
  induction fuel with
  | zero => intro n acc hacc c hc; exact hacc c hc
  | succ fuel ih =>
      intro n acc hacc
      have hd : (Char.ofNat (48 + n % 10)).isDigit = true := by
        have hm : n % 10 < 10 := Nat.mod_lt _ (by norm_num)
        have hv : (Char.ofNat (48 + n % 10)).toNat = 48 + n % 10 :=
          char_toNat_ofNat_small _ (by omega)
        rw [isDigit_iff_toNat, hv]
        omega
      have hcons : ∀ c ∈ Char.ofNat (48 + n % 10) :: acc, c.isDigit = true := by
        intro c hc
        rcases List.mem_cons.mp hc with rfl | hc
        · exact hd
        · exact hacc c hc
      unfold natDecimalAux
      split
      · exact hcons
      · exact ih (n / 10) _ hcons

theorem natDecimal_isDigit (n : Nat) :
    ∀ c ∈ (natDecimal n).data, c.isDigit = true :=
  natDecimalAux_isDigit (n + 1) n [] (by intro c hc; cases hc)

/-- The synthesized stub email is a fixed point of
`canonicalize_email`: entirely lowercase with no whitespace. -/
theorem stubEmail_canon (salt idx : Nat) :
    canonEmailStr (stubEmail salt idx) = some (stubEmail salt idx) := by
  apply canonEmailStr_fixed
  · unfold stubEmail
    simp [String.data_append]
  · unfold stubEmail
    intro c hc
    simp only [String.data_append] at hc
    have hgood : ∀ d : Char, d.isDigit = true → isWs d = false ∧ lowerChar d = d :=
      digit_not_ws_not_upper
    have hlit1 : ∀ d ∈ ("unknown+g" : String).data,
        isWs d = false ∧ lowerChar d = d := by decide
    have hlit2 : ∀ d ∈ ("x" : String).data,
        isWs d = false ∧ lowerChar d = d := by decide
    have hlit3 : ∀ d ∈ ("@example.com" : String).data,
        isWs d = false ∧ lowerChar d = d := by decide
    rcases List.mem_append.mp hc with hc | hc
    · rcases List.mem_append.mp hc with hc | hc
      · rcases List.mem_append.mp hc with hc | hc
        · rcases List.mem_append.mp hc with hc | hc
          · exact hlit1 c hc
          · exact hgood c (natDecimal_isDigit salt c hc)
        · exact hlit2 c hc
      · exact hgood c (natDecimal_isDigit idx c hc)
    · exact hlit3 c hc

/-! # C3 — what happens to a dangling sales line -/

theorem insertStub_mono (S : Store) (em : String) :
    ∀ x ∈ S.customers, x ∈ (insertStub S em).customers :=
  (insertStub_shape S em).2.2.2

theorem insertStub_mem_email (S : Store) (em : String) :
    ∃ c ∈ (insertStub S em).customers, c.email = em := by
  unfold insertStub
  split
  · rename_i hmem
    rcases List.mem_map.mp hmem with ⟨c, hc, hce⟩
    exact ⟨c, hc, hce⟩
  · exact ⟨_, List.mem_append_right _ (List.mem_singleton_self _), rfl⟩

theorem foldl_insertStub_mono (L : List String) :
    ∀ (S : Store), ∀ x ∈ S.customers, x ∈ (L.foldl insertStub S).customers := by
  induction L with
  | nil => intro S x hx; exact hx
  | cons a rest ih =>
      intro S x hx
      exact ih (insertStub S a) x (insertStub_mono S a x hx)

theorem foldl_insertStub_present (L : List String) (S : Store) :
    ∀ em ∈ L, ∃ c ∈ (L.foldl insertStub S).customers, c.email = em := by
  induction L generalizing S with
  | nil => intro em hem; cases hem
  | cons a rest ih =>
      intro em hem
      rcases List.mem_cons.mp hem with rfl | hem
      · rcases insertStub_mem_email S em with ⟨c, hc, hce⟩
        exact ⟨c, foldl_insertStub_mono rest _ c hc, hce⟩
      · exact ih (insertStub S a) em hem

theorem lookupEmail_mem {S : Store} {e : String} {cid : Nat}
    (h : lookupEmail S e = some cid) : cid ∈ customerIds S := by
  unfold lookupEmail at h
  cases hf : S.customers.reverse.find? (fun c => canonEmailStr c.email = some e) with
  | none => rw [hf] at h; cases h
  | some c =>
      rw [hf] at h
      have hcm : c ∈ S.customers := List.mem_reverse.mp (List.mem_of_find?_eq_some hf)
      cases h
      exact List.mem_map_of_mem _ hcm

theorem lookupEmail_isSome_of {S : Store} {e : String}
    (h : ∃ c ∈ S.customers, canonEmailStr c.email = some e) :
    (lookupEmail S e).isSome = true := by
  rcases h with ⟨c, hc, hce⟩
  have hf : (S.customers.reverse.find?
      (fun c => canonEmailStr c.email = some e)).isSome = true := by
    rw [List.find?_isSome]
    exact ⟨c, List.mem_reverse.mpr hc, by simp [hce]⟩
  rcases Option.isSome_iff_exists.mp hf with ⟨c', hc'⟩
  unfold lookupEmail
  rw [hc']
  rfl

/-- A full pipeline input whose only sales line references customer id
7, matching no customer row. -/
def danglingSales : RawSales :=
  ⟨RV.str "9", RV.str "2023-02-01", RV.str "7", RV.str "1", RV.str "1",
   RV.str "3"⟩

def danglingInput : Input :=
  ⟨requiredCustomerColumns, [exCustomer],
   "product_id" :: requiredProductColumns, [exProduct],
   requiredSalesColumns, [danglingSales]⟩

/-- C3 counterexample: the input's only sales line is dangling — its
customer id matches no transformed customer (its joined email is
absent) — yet the run persists one order and one order_item built from
it (attached to a synthesized Guest customer), so the claim that such a
line "is never persisted as part of any order and never produces an
order_item" is false. -/
theorem dangling_line_persisted :
    ((stagedSales danglingInput.sales
        (transformCustomers danglingInput.customers 1)).map (fun l => l.email) =
      [none]) ∧
    (runPipeline danglingInput 1 emptyStore).store.orders.length = 1 ∧
    (runPipeline danglingInput 1 emptyStore).store.items.length = 1 ∧
    (runPipeline danglingInput 1 emptyStore).error = none := by decide

/-- C3 amended: a sales line whose joined email is absent (in
particular one whose customer id matches no transformed customer) is
**not** dropped by the resolver: it survives resolution with all its
payload fields intact, resolved to a customer id that exists in the
store (the synthesized Guest customer), and thus goes on to produce an
order and order_item like any other line.  Only lines whose email is
present but unmapped are dropped. -/
theorem dangling_line_resolved (S : Store) (salt : Nat) (lines : List SLine)
    (i : Nat) (hi : i < lines.length) (he : lines[i].email = none) :
    ∃ l' ∈ (remapSales S salt lines).1,
      l'.tid = lines[i].tid ∧ l'.pid = lines[i].pid ∧ l'.qty = lines[i].qty ∧
      l'.price = lines[i].price ∧ l'.subtotal = lines[i].subtotal ∧
      l'.cid ∈ customerIds (remapSales S salt lines).2 := by
  have hAny : lines.any (fun l => l.email.isNone) = true :=
    List.any_eq_true.mpr ⟨lines[i], List.getElem_mem hi, by rw [he]; rfl⟩
  have hstubmem : stubEmail salt i ∈ stubEmailList salt lines := by
    unfold stubEmailList
    rw [mem_dedupFull_iff]
    refine List.mem_map.mpr ⟨(i, lines[i]), ?_, rfl⟩
    refine List.mem_filter.mpr ⟨?_, by simp [he]⟩
    have hlen2 : i < lines.enum.length := by simpa using hi
    have hee : lines.enum[i] = (i, lines[i]) := List.getElem_enum _ _ _
    rw [← hee]
    exact List.getElem_mem _
  rcases foldl_insertStub_present (stubEmailList salt lines) S _ hstubmem with
    ⟨c, hc, hce⟩
  have hlook : (lookupEmail ((stubEmailList salt lines).foldl insertStub S)
      (stubEmail salt i)).isSome = true :=
    lookupEmail_isSome_of ⟨c, hc, by rw [hce]; exact stubEmail_canon salt i⟩
  rcases Option.isSome_iff_exists.mp hlook with ⟨cid, hcid⟩
  have hlen : i < (stubLines salt lines).length := by
    unfold stubLines
    simpa using hi
  have hget : (stubLines salt lines)[i] =
      { lines[i] with email := some (stubEmail salt i) } := by
    unfold stubLines
    rw [List.getElem_map]
    rw [List.getElem_enum]
    simp [he]
  unfold remapSales
  rw [if_pos hAny]
  refine ⟨{ lines[i] with email := some (stubEmail salt i), cid := cid },
    ?_, rfl, rfl, rfl, rfl, rfl, ?_⟩
  · unfold resolveAgainst
    refine List.mem_filterMap.mpr ⟨(stubLines salt lines)[i],
      List.getElem_mem hlen, ?_⟩
    rw [hget]
    simp only
    rw [hcid]
    rfl
  · simpa using lookupEmail_mem hcid

/-- A staged sales line whose joined email is absent. -/
def unmappedNoEmailLine : SLine :=
  ⟨some 8, 7, 2, some "2023-03-01", 1, 4, 4, none⟩

theorem dangling_line_resolved_witness :
    unmappedNoEmailLine.email = none ∧
    ∃ l' ∈ (remapSales mappedStore 3 [unmappedNoEmailLine]).1,
      l'.tid = unmappedNoEmailLine.tid ∧
      l'.pid = unmappedNoEmailLine.pid ∧
      l'.qty = unmappedNoEmailLine.qty ∧
      l'.price = unmappedNoEmailLine.price ∧
      l'.subtotal = unmappedNoEmailLine.subtotal ∧
      l'.cid ∈ customerIds (remapSales mappedStore 3 [unmappedNoEmailLine]).2 := by
  refine ⟨by decide, ?_⟩
  exact dangling_line_resolved mappedStore 3 [unmappedNoEmailLine] 0 (by decide)
    (by decide)

/-! # C7 — customer deduplication by canonical email -/

/-- "Differ only in letter case and/or whitespace": equal after
deleting all whitespace and lower-casing. -/
def eqUpToCaseWs (a b : String) : Prop := caseWsCanon a = caseWsCanon b

instance (a b : String) : Decidable (eqUpToCaseWs a b) := by
  unfold eqUpToCaseWs
  infer_instance

theorem dedupByEmailAux_not_seen {seen : List String} {l : List TCustomer} :
    ∀ c ∈ dedupByEmailAux seen l, c.email ∉ seen := by
  induction l generalizing seen with
  | nil => intro c hc; simp [dedupByEmailAux] at hc
  | cons b rest ih =>
      intro c hc
      unfold dedupByEmailAux at hc
      split at hc
      · exact ih c hc
      · rcases List.mem_cons.mp hc with rfl | hc
        · assumption
        · intro hseen
          exact ih c hc (List.mem_cons_of_mem _ hseen)

theorem dedupByEmailAux_emails_nodup (seen : List String) (l : List TCustomer) :
    ((dedupByEmailAux seen l).map (fun c => c.email)).Nodup := by
  induction l generalizing seen with
  | nil => simp [dedupByEmailAux]
  | cons b rest ih =>
      unfold dedupByEmailAux
      split
      · exact ih _
      · rw [List.map_cons]
        refine List.nodup_cons.mpr ⟨?_, ih _⟩
        intro hmem
        rcases List.mem_map.mp hmem with ⟨c, hc, hce⟩
        exact dedupByEmailAux_not_seen c hc (hce ▸ List.mem_cons_self _ _)

theorem dedupByEmailAux_email_mem {seen : List String} {l : List TCustomer}
    {e : String} (he : e ∉ seen) (hm : e ∈ l.map (fun c => c.email)) :
    e ∈ (dedupByEmailAux seen l).map (fun c => c.email) := by
  induction l generalizing seen with
  | nil => simp at hm
  | cons b rest ih =>
      unfold dedupByEmailAux
      rcases List.mem_map.mp hm with ⟨c, hc, hce⟩
      split
      · rename_i hbs
        rcases List.mem_cons.mp hc with rfl | hc
        · exact absurd (hce ▸ hbs) he
        · exact ih he (hce ▸ List.mem_map_of_mem _ hc)
      · rw [List.map_cons]
        by_cases heb : e = b.email
        · exact heb ▸ List.mem_cons_self _ _
        · refine List.mem_cons_of_mem _ ?_
          rcases List.mem_cons.mp hc with rfl | hc
          · exact absurd hce.symm heb
          · exact ih (by simp [he, heb]) (hce ▸ List.mem_map_of_mem _ hc)

theorem dedupByEmailAux_find? {seen : List String} (l : List TCustomer)
    {e : String} (he : e ∉ seen) :
    (dedupByEmailAux seen l).find? (fun c => decide (c.email = e)) =
      l.find? (fun c => decide (c.email = e)) := by
  induction l generalizing seen with
  | nil => rfl
  | cons c rest ih =>
      unfold dedupByEmailAux
      by_cases hcs : c.email ∈ seen
      · rw [if_pos hcs]
        have hne : ¬ (c.email = e) := fun h => he (h ▸ hcs)
        rw [List.find?_cons_of_neg _ (by simpa using hne)]
        exact ih he
      · rw [if_neg hcs]
        by_cases hce : c.email = e
        · rw [List.find?_cons_of_pos _ (by simpa using hce),
            List.find?_cons_of_pos _ (by simpa using hce)]
        · rw [List.find?_cons_of_neg _ (by simpa using hce),
            List.find?_cons_of_neg _ (by simpa using hce)]
          refine ih ?_
          intro hmem
          rcases List.mem_cons.mp hmem with h1 | h1
          · exact hce h1.symm
          · exact he h1

/-- `countP` by a key that occurs exactly once. -/
theorem countP_key_eq_one {α κ : Type} [DecidableEq κ] (f : α → κ)
    (l : List α) (hnd : (l.map f).Nodup) (k : κ) (hk : k ∈ l.map f) :
    l.countP (fun x => decide (f x = k)) = 1 := by
  induction l with
  | nil => simp at hk
  | cons a rest ih =>
      rw [List.map_cons, List.nodup_cons] at hnd
      rcases List.mem_cons.mp hk with hk | hk
      · have h0 : rest.countP (fun x => decide (f x = k)) = 0 :=
          List.countP_eq_zero.mpr (by
            intro x hx
            simp only [decide_eq_true_eq]
            intro hfx
            exact hnd.1 (hk ▸ hfx ▸ List.mem_map_of_mem f hx))
        rw [List.countP_cons_of_pos _ _ (by simp [hk]), h0]
      · have hak : ¬ (f a = k) := by
          intro h
          exact hnd.1 (h ▸ hk)
        rw [List.countP_cons_of_neg, ih hnd.2 hk]
        simpa using hak

/-- Per-insert effect on the stored email set. -/
theorem insertCustomerWithId_emails {c : TCustomer} {cid : Nat} {S S' : Store}
    (h : insertCustomerWithId c cid S = .ok S') :
    (storeEmails S' = storeEmails S ∧ c.email ∈ storeEmails S) ∨
    (c.email ∉ storeEmails S ∧ storeEmails S' = storeEmails S ++ [c.email]) := by
  unfold insertCustomerWithId at h
  split at h
  · cases h
  · split at h
    · cases h
    · split at h
      · cases h
        exact Or.inl ⟨rfl, by assumption⟩
      · split at h
        · cases h
        · cases h
          refine Or.inr ⟨by assumption, ?_⟩
          unfold storeEmails
          rw [List.map_append]
          rfl

theorem insertCustomerAuto_emails {c : TCustomer} {S S' : Store}
    (h : insertCustomerAuto c S = .ok S') :
    (storeEmails S' = storeEmails S ∧ c.email ∈ storeEmails S) ∨
    (c.email ∉ storeEmails S ∧ storeEmails S' = storeEmails S ++ [c.email]) := by
  unfold insertCustomerAuto at h
  split at h
  · cases h
  · split at h
    · cases h
    · split at h
      · cases h
        exact Or.inl ⟨rfl, by assumption⟩
      · cases h
        refine Or.inr ⟨by assumption, ?_⟩
        unfold storeEmails
        rw [List.map_append]
        rfl

/-- Effect of a batch of customer inserts on the stored email set:
nodup is preserved, presence is monotone, every processed row's email
is present afterwards. -/
theorem insertList_emails {ins : TCustomer → Store → Except String Store}
    (hshape : ∀ a S S', ins a S = .ok S' →
      (storeEmails S' = storeEmails S ∧ a.email ∈ storeEmails S) ∨
      (a.email ∉ storeEmails S ∧ storeEmails S' = storeEmails S ++ [a.email])) :
    ∀ {l : List TCustomer} {S S'}, insertList ins l S = .ok S' →
    ((storeEmails S).Nodup → (storeEmails S').Nodup) ∧
    (∀ e ∈ storeEmails S, e ∈ storeEmails S') ∧
    (∀ a ∈ l, a.email ∈ storeEmails S') := by
  intro l
  induction l with
  | nil =>
      intro S S' h
      unfold insertList at h
      cases h
      exact ⟨id, fun e he => he, by intro a ha; cases ha⟩
  | cons a rest ih =>
      intro S S' h
      unfold insertList at h
      split at h
      · cases h
      · rename_i S1 hins
        obtain ⟨ihnd, ihmono, ihall⟩ := ih h
        have hstep := hshape a S S1 hins
        have hnd1 : (storeEmails S).Nodup → (storeEmails S1).Nodup := by
          intro hnd
          rcases hstep with ⟨heq, _⟩ | ⟨hnew, heq⟩
          · rw [heq]; exact hnd
          · rw [heq]
            rw [List.nodup_append]
            exact ⟨hnd, List.nodup_singleton _, by
              intro x hx hx1
              rcases List.mem_singleton.mp hx1 with rfl
              exact hnew hx⟩
        have hmono1 : ∀ e ∈ storeEmails S, e ∈ storeEmails S1 := by
          intro e he
          rcases hstep with ⟨heq, _⟩ | ⟨_, heq⟩
          · rw [heq]; exact he
          · rw [heq]; exact List.mem_append_left _ he
        have hmem1 : a.email ∈ storeEmails S1 := by
          rcases hstep with ⟨heq, hin⟩ | ⟨_, heq⟩
          · rw [heq]; exact hin
          · rw [heq]; exact List.mem_append_right _ (List.mem_singleton_self _)
        refine ⟨fun hnd => ihnd (hnd1 hnd), fun e he => ihmono e (hmono1 e he), ?_⟩
        intro x hx
        rcases List.mem_cons.mp hx with rfl | hx
        · exact ihmono _ hmem1
        · exact ihall x hx

/-- `upsert_customers` success: stored emails stay duplicate-free,
existing emails remain, and every transformed row's email is stored. -/
theorem upsert_emails {T : List TCustomer} {S S' : Store}
    (h : upsertCustomers T S = .ok S') :
    ((storeEmails S).Nodup → (storeEmails S').Nodup) ∧
    (∀ e ∈ storeEmails S, e ∈ storeEmails S') ∧
    (∀ c ∈ T, c.email ∈ storeEmails S') := by
  unfold upsertCustomers at h
  split at h
  · cases h
  · rename_i S1 h1
    obtain ⟨nd1, mono1, all1⟩ :=
      insertList_emails (fun a S S' hins => insertCustomerWithId_emails hins) h1
    obtain ⟨nd2, mono2, all2⟩ :=
      insertList_emails (fun a S S' hins => insertCustomerAuto_emails hins) h
    refine ⟨fun hnd => nd2 (nd1 hnd), fun e he => mono2 e (mono1 e he), ?_⟩
    intro c hc
    cases hcid : c.cid with
    | some v =>
        refine mono2 _ (all1 c ?_)
        exact List.mem_filter.mpr ⟨hc, by simp [hcid]⟩
    | none =>
        refine all2 c ?_
        exact List.mem_filter.mpr ⟨hc, by simp [hcid]⟩

/-- Two raw customer rows whose emails are effectively empty (only
whitespace). -/
def wsCustomerA : RawCustomer :=
  ⟨RV.str "1", RV.str "Ann", RV.str "Lee", RV.str "", RV.na, RV.na, RV.na⟩

def wsCustomerB : RawCustomer :=
  ⟨RV.str "2", RV.str "Bea", RV.str "/ Roy", RV.str " ", RV.na, RV.na, RV.na⟩

/-- C7 counterexample: the raw emails `""` and `" "` differ only in
whitespace, yet **both** rows survive the transform and both are
persisted: their canonical emails are absent, so each receives a
distinct synthesized placeholder and no collapse happens.  The claim
as universally stated is false. -/
theorem whitespace_email_rows_both_survive :
    eqUpToCaseWs "" " " ∧
    canonicalizeEmail (RV.str "") = none ∧
    (transformCustomers [wsCustomerA, wsCustomerB] 0).length = 2 ∧
    (upsertCustomers (transformCustomers [wsCustomerA, wsCustomerB] 0)
        emptyStore).toOption.map (fun S => S.customers.length) = some 2 := by
  decide

/-- C7 amended: for two rows whose raw emails differ only in case
and/or whitespace **and canonicalize to a present (non-absent) email**
`e`, exactly one transformed customer carries `e` — namely the first
arrival with that canonical email — and exactly one customer row with
email `e` is persisted by the upsert into an empty store. -/
theorem customer_dedup_canonical (rows : List RawCustomer) (salt : Nat)
    (i j : Nat) (hij : i < j) (hj : j < rows.length) (hi : i < rows.length)
    (a b e : String)
    (ha : (rows[i]).email = RV.str a)
    (hb : (rows[j]).email = RV.str b)
    (hab : eqUpToCaseWs a b)
    (he : canonEmailStr a = some e) :
    ((transformCustomers rows salt).countP (fun c => decide (c.email = e)) = 1) ∧
    ((transformCustomers rows salt).find? (fun c => decide (c.email = e)) =
      (rows.enum.map (fun p => transformCustomerRow salt p.1 p.2)).find?
        (fun c => decide (c.email = e))) ∧
    (∀ S', upsertCustomers (transformCustomers rows salt) emptyStore = .ok S' →
      S'.customers.countP (fun c => decide (c.email = e)) = 1) := by
  have hrowi : transformCustomerRow salt i (rows[i]) ∈
      rows.enum.map (fun p => transformCustomerRow salt p.1 p.2) := by
    have hlen2 : i < rows.enum.length := by simpa using hi
    have hee : rows.enum[i] = (i, rows[i]) := List.getElem_enum _ _ _
    refine List.mem_map.mpr ⟨(i, rows[i]), ?_, rfl⟩
    rw [← hee]
    exact List.getElem_mem _
  have hemail : (transformCustomerRow salt i (rows[i])).email = e := by
    unfold transformCustomerRow canonicalizeEmail
    rw [ha]
    simp only
    rw [he]
  have hmem : e ∈ (rows.enum.map (fun p => transformCustomerRow salt p.1 p.2)).map
      (fun c => c.email) := hemail ▸ List.mem_map_of_mem _ hrowi
  have hTmem : e ∈ (transformCustomers rows salt).map (fun c => c.email) := by
    unfold transformCustomers
    exact dedupByEmailAux_email_mem (by simp) hmem
  have hTnd : ((transformCustomers rows salt).map (fun c => c.email)).Nodup :=
    dedupByEmailAux_emails_nodup [] _
  refine ⟨countP_key_eq_one _ _ hTnd e hTmem, ?_, ?_⟩
  · unfold transformCustomers
    exact dedupByEmailAux_find? _ (by simp)
  · intro S' hS'
    obtain ⟨hnd, _, hall⟩ := upsert_emails hS'
    have hnd' : (storeEmails S').Nodup := hnd (by simp [storeEmails, emptyStore])
    have hpres : e ∈ storeEmails S' := by
      rcases List.mem_map.mp hTmem with ⟨c, hc, hce⟩
      exact hce ▸ hall c hc
    have hnd2 : (S'.customers.map (fun c => c.email)).Nodup := hnd'
    have hpres2 : e ∈ S'.customers.map (fun c => c.email) := hpres
    exact countP_key_eq_one (fun c => c.email) S'.customers hnd2 e hpres2

/-- Two rows whose emails differ only in case and internal whitespace. -/
def caseCustomerA : RawCustomer :=
  ⟨RV.str "1", RV.str "Ann", RV.str "Lee", RV.str "A lice@Ex.COM ",
   RV.na, RV.na, RV.na⟩

def caseCustomerB : RawCustomer :=
  ⟨RV.str "2", RV.str "Bea", RV.str "Roy", RV.str "alice@ex.com",
   RV.na, RV.na, RV.na⟩

theorem customer_dedup_canonical_witness :
    ((transformCustomers [caseCustomerA, caseCustomerB] 0).countP
        (fun c => decide (c.email = "alice@ex.com")) = 1) ∧
    ((transformCustomers [caseCustomerA, caseCustomerB] 0).find?
        (fun c => decide (c.email = "alice@ex.com")) =
      ([caseCustomerA, caseCustomerB].enum.map
        (fun p => transformCustomerRow 0 p.1 p.2)).find?
        (fun c => decide (c.email = "alice@ex.com"))) ∧
    (∀ S', upsertCustomers (transformCustomers [caseCustomerA, caseCustomerB] 0)
        emptyStore = .ok S' →
      S'.customers.countP (fun c => decide (c.email = "alice@ex.com")) = 1) :=
  customer_dedup_canonical [caseCustomerA, caseCustomerB] 0 0 1 (by decide)
    (by decide) (by decide) "A lice@Ex.COM " "alice@ex.com" "alice@ex.com"
    (by decide) (by decide) (by decide) (by decide)

/-! # C2 — behaviour of repeated runs

Groundwork: store-independent checks extracted from successful inserts,
no-op behaviour of the insert-ignore statements on an already-loaded
store, and frame/effect facts for each stage. -/

/-- The NOT NULL/date checks of a customer insert, which do not depend
on the store. -/
def custRowOk (c : TCustomer) : Prop :=
  ¬ (c.first = RV.na ∨ c.last = RV.na) ∧ dateColOk c.regdate = true

/-- The NOT NULL/date checks of an order insert. -/
def orderOk (o : OrderB) : Prop :=
  ∃ d, o.date = some d ∧ validIsoDate d = true

theorem insertCustomerWithId_ok_checks {c : TCustomer} {cid : Nat} {S S' : Store}
    (h : insertCustomerWithId c cid S = .ok S') : custRowOk c := by
  unfold insertCustomerWithId at h
  split at h
  · cases h
  · split at h
    · cases h
    · rename_i h1 h2
      exact ⟨h1, by simpa using h2⟩

theorem insertCustomerAuto_ok_checks {c : TCustomer} {S S' : Store}
    (h : insertCustomerAuto c S = .ok S') : custRowOk c := by
  unfold insertCustomerAuto at h
  split at h
  · cases h
  · split at h
    · cases h
    · rename_i h1 h2
      exact ⟨h1, by simpa using h2⟩

theorem insertProductWithId_ok_name {p : TProduct} {S S' : Store}
    (h : insertProductWithId p S = .ok S') : p.name ≠ RV.na := by
  unfold insertProductWithId at h
  split at h
  · cases h
  · assumption

theorem insertProductAuto_ok_name {p : TProduct} {S S' : Store}
    (h : insertProductAuto p S = .ok S') : p.name ≠ RV.na := by
  unfold insertProductAuto at h
  split at h
  · cases h
  · assumption

theorem insertOrder_ok_checks {o : OrderB} {S S' : Store}
    (h : insertOrder o S = .ok S') : orderOk o := by
  unfold insertOrder at h
  split at h
  · cases h
  · rename_i d hd
    split at h
    · cases h
    · rename_i hv
      exact ⟨d, hd, by simpa using hv⟩

/-- A successful batch certifies every element's store-independent
check. -/
theorem insertList_forall_ok {α : Type} {ins : α → Store → Except String Store}
    {C : α → Prop} (hstep : ∀ a S S', ins a S = .ok S' → C a) :
    ∀ {l : List α} {S S'}, insertList ins l S = .ok S' → ∀ a ∈ l, C a := by
  intro l
  induction l with
  | nil => intro S S' _ a ha; cases ha
  | cons a rest ih =>
      intro S S' h x hx
      unfold insertList at h
      split at h
      · cases h
      · rename_i S1 hins
        rcases List.mem_cons.mp hx with rfl | hx
        · exact hstep x S S1 hins
        · exact ih h x hx

/-- Generic presence lemma for keyed inserts. -/
theorem insertList_present {α κ : Type} {ins : α → Store → Except String Store}
    (key : α → κ) (Q : κ → Store → Prop)
    (hmono : ∀ a S S', ins a S = .ok S' → ∀ k, Q k S → Q k S')
    (hself : ∀ a S S', ins a S = .ok S' → Q (key a) S') :
    ∀ {l : List α} {S S'}, insertList ins l S = .ok S' →
      (∀ a ∈ l, Q (key a) S') ∧ (∀ k, Q k S → Q k S') := by
  intro l
  induction l with
  | nil =>
      intro S S' h
      unfold insertList at h
      cases h
      exact ⟨fun a ha => absurd ha (List.not_mem_nil a), fun k hk => hk⟩
  | cons a rest ih =>
      intro S S' h
      unfold insertList at h
      split at h
      · cases h
      · rename_i S1 hins
        obtain ⟨ihall, ihmono⟩ := ih h
        refine ⟨?_, fun k hk => ihmono k (hmono a S S1 hins k hk)⟩
        intro x hx
        rcases List.mem_cons.mp hx with rfl | hx
        · exact ihmono _ (hself x S S1 hins)
        · exact ihall x hx

theorem insertProductWithId_id_mono {p : TProduct} {S S' : Store}
    (h : insertProductWithId p S = .ok S') :
    ∀ k, k ∈ productIds S → k ∈ productIds S' := by
  intro k hk
  exact mem_map_mono _ (insertProductWithId_shape h).2.2.2 _ hk

theorem insertProductWithId_id_self {p : TProduct} {S S' : Store}
    (h : insertProductWithId p S = .ok S') : p.pid.getD 0 ∈ productIds S' := by
  unfold insertProductWithId at h
  split at h
  · cases h
  · split at h
    · cases h
      assumption
    · cases h
      unfold productIds
      rw [List.map_append]
      exact List.mem_append_right _ (List.mem_singleton_self _)

theorem insertOrder_id_mono {o : OrderB} {S S' : Store}
    (h : insertOrder o S = .ok S') :
    ∀ k, k ∈ orderIds S → k ∈ orderIds S' := by
  intro k hk
  rcases (insertOrder_shape h).2.2.2 with heq | ⟨d, heq, _⟩
  · unfold orderIds
    rw [heq]
    exact hk
  · unfold orderIds
    rw [heq, List.map_append]
    exact List.mem_append_left _ hk

theorem insertOrder_id_self {o : OrderB} {S S' : Store}
    (h : insertOrder o S = .ok S') : o.id ∈ orderIds S' := by
  unfold insertOrder at h
  split at h
  · cases h
  · split at h
    · cases h
    · split at h
      · cases h
        assumption
      · split at h
        · cases h
        · cases h
          unfold orderIds
          rw [List.map_append]
          exact List.mem_append_right _ (List.mem_singleton_self _)

/-! ## No-op behaviour of the insert-ignore statements -/

theorem insertCustomerWithId_noop {c : TCustomer} {cid : Nat} {S : Store}
    (h1 : custRowOk c) (h2 : c.email ∈ storeEmails S) :
    insertCustomerWithId c cid S = .ok S := by
  unfold insertCustomerWithId
  rw [if_neg h1.1, if_neg (by simp [h1.2]), if_pos h2]

theorem insertCustomerAuto_noop {c : TCustomer} {S : Store}
    (h1 : custRowOk c) (h2 : c.email ∈ storeEmails S) :
    insertCustomerAuto c S = .ok S := by
  unfold insertCustomerAuto
  rw [if_neg h1.1, if_neg (by simp [h1.2]), if_pos h2]

theorem insertProductWithId_noop {p : TProduct} {S : Store}
    (h1 : p.name ≠ RV.na) (h2 : p.pid.getD 0 ∈ productIds S) :
    insertProductWithId p S = .ok S := by
  unfold insertProductWithId
  rw [if_neg h1, if_pos h2]

theorem insertOrder_noop {o : OrderB} {S : Store}
    (h1 : orderOk o) (h2 : o.id ∈ orderIds S) :
    insertOrder o S = .ok S := by
  rcases h1 with ⟨d, hd, hv⟩
  unfold insertOrder
  rw [hd]
  simp only [hv]
  rw [if_neg (by simp), if_pos h2]

theorem insertList_noop {α : Type} {ins : α → Store → Except String Store}
    {l : List α} {S : Store} (h : ∀ a ∈ l, ins a S = .ok S) :
    insertList ins l S = .ok S := by
  induction l with
  | nil => rfl
  | cons a rest ih =>
      unfold insertList
      rw [h a (List.mem_cons_self _ _)]
      exact ih (fun x hx => h x (List.mem_cons_of_mem _ hx))

theorem upsert_noop {T : List TCustomer} {S : Store}
    (h : ∀ c ∈ T, custRowOk c ∧ c.email ∈ storeEmails S) :
    upsertCustomers T S = .ok S := by
  unfold upsertCustomers
  rw [insertList_noop (fun c hc => by
    have hcT := List.mem_filter.mp hc
    exact insertCustomerWithId_noop (h c hcT.1).1 (h c hcT.1).2)]
  exact insertList_noop (fun c hc => by
    have hcT := List.mem_filter.mp hc
    exact insertCustomerAuto_noop (h c hcT.1).1 (h c hcT.1).2)

theorem loadProducts_noop {P : List TProduct} {S : Store}
    (hsome : ∀ p ∈ P, p.pid.isSome = true)
    (h : ∀ p ∈ P, p.name ≠ RV.na ∧ p.pid.getD 0 ∈ productIds S) :
    loadProducts P S = .ok S := by
  have hempty : P.filter (fun p => p.pid.isNone) = [] := by
    rw [List.filter_eq_nil_iff]
    intro p hp
    rcases Option.isSome_iff_exists.mp (hsome p hp) with ⟨v, hv⟩
    simp [hv]
  unfold loadProducts
  rw [insertList_noop (fun p hp => by
    have hpP := List.mem_filter.mp hp
    exact insertProductWithId_noop (h p hpP.1).1 (h p hpP.1).2)]
  show insertList insertProductAuto (P.filter (fun p => p.pid.isNone)) S = .ok S
  rw [hempty]
  rfl

/-! ## Frame and effect facts for the stages -/

theorem insertList_frame {α γ : Type} {ins : α → Store → Except String Store}
    (f : Store → γ) (hstep : ∀ a S S', ins a S = .ok S' → f S' = f S) :
    ∀ {l : List α} {S S'}, insertList ins l S = .ok S' → f S' = f S := by
  intro l
  induction l with
  | nil =>
      intro S S' h
      unfold insertList at h
      cases h
      rfl
  | cons a rest ih =>
      intro S S' h
      unfold insertList at h
      split at h
      · cases h
      · rename_i S1 hins
        rw [ih h, hstep a S S1 hins]

theorem loadProducts_frame {P : List TProduct} {S S' : Store}
    (h : loadProducts P S = .ok S') :
    S'.customers = S.customers ∧ S'.orders = S.orders ∧ S'.items = S.items := by
  unfold loadProducts at h
  split at h
  · cases h
  · rename_i S1 h1
    have f1 := insertList_frame (fun X => (X.customers, X.orders, X.items))
      (fun a S S' hins => by
        obtain ⟨hc, ho, hi, _⟩ := insertProductWithId_shape hins
        simp [hc, ho, hi]) h1
    have f2 := insertList_frame (fun X => (X.customers, X.orders, X.items))
      (fun a S S' hins => by
        obtain ⟨hc, ho, hi, _⟩ := insertProductAuto_shape hins
        simp [hc, ho, hi]) h
    have := f2.trans f1
    exact ⟨congrArg Prod.fst this, congrArg Prod.fst (congrArg Prod.snd this),
      congrArg Prod.snd (congrArg Prod.snd this)⟩

theorem insertOrders_frame {B : List OrderB} {S S' : Store}
    (h : insertList insertOrder B S = .ok S') :
    S'.customers = S.customers ∧ S'.products = S.products ∧ S'.items = S.items := by
  have f1 := insertList_frame (fun X => (X.customers, X.products, X.items))
    (fun a S S' hins => by
      obtain ⟨hc, hp, hi, _⟩ := insertOrder_shape hins
      simp [hc, hp, hi]) h
  exact ⟨congrArg Prod.fst f1, congrArg Prod.fst (congrArg Prod.snd f1),
    congrArg Prod.snd (congrArg Prod.snd f1)⟩

/-- The item batch: every other table unchanged, items grow by exactly
the batch size. -/
theorem insertItems_effect :
    ∀ {l : List SLine} {S S'}, insertList insertItemLine l S = .ok S' →
    S'.customers = S.customers ∧ S'.products = S.products ∧
    S'.orders = S.orders ∧ S'.items.length = S.items.length + l.length := by
  intro l
  induction l with
  | nil =>
      intro S S' h
      unfold insertList at h
      cases h
      exact ⟨rfl, rfl, rfl, rfl⟩
  | cons a rest ih =>
      intro S S' h
      unfold insertList at h
      split at h
      · cases h
      · rename_i S1 hins
        obtain ⟨hc, hp, ho, r, heq, _, _⟩ := insertItemLine_shape hins
        obtain ⟨ic, ip, io, il⟩ := ih h
        refine ⟨ic.trans hc, ip.trans hp, io.trans ho, ?_⟩
        rw [il, heq]
        simp [Nat.add_assoc, Nat.add_comm 1]

/-! ## Determinism and congruence facts for repeated runs -/

theorem lookupEmail_congr {S1 S2 : Store} (h : S1.customers = S2.customers)
    (e : String) : lookupEmail S1 e = lookupEmail S2 e := by
  unfold lookupEmail
  rw [h]

theorem resolveAgainst_congr {S1 S2 : Store} (h : S1.customers = S2.customers)
    (L : List SLine) : resolveAgainst S1 L = resolveAgainst S2 L := by
  unfold resolveAgainst
  refine congrArg (fun f => List.filterMap f L) (funext (fun l => ?_))
  cases l.email with
  | none => rfl
  | some e => simp [lookupEmail_congr h]

theorem remapSales_no_missing {S : Store} {salt : Nat} {L : List SLine}
    (h : L.any (fun l => l.email.isNone) = false) :
    remapSales S salt L = (resolveAgainst S L, S) := by
  unfold remapSales
  rw [if_neg (by simp [h])]

/-- Every staged sales line's email is either absent (merge miss) or
the canonicalization of some transformed customer's email. -/
theorem stagedSales_email_src (rows : List RawSales) (T : List TCustomer) :
    ∀ l ∈ stagedSales rows T,
      l.email = none ∨ ∃ c ∈ T, canonEmailStr c.email = l.email := by
  intro l hl
  unfold stagedSales at hl
  rcases List.mem_map.mp hl with ⟨l0, hl0, rfl⟩
  rcases List.mem_flatMap.mp hl0 with ⟨l1, _, hm⟩
  unfold mergeEmail at hm
  cases hf : T.filter (fun c => c.cid = some l1.cid) with
  | nil =>
      rw [hf] at hm
      rcases List.mem_singleton.mp hm with rfl
      left
      rfl
  | cons c cs =>
      rw [hf] at hm
      rcases List.mem_map.mp hm with ⟨c', hc', rfl⟩
      right
      have hcf : c' ∈ T.filter (fun c => c.cid = some l1.cid) := by
        rw [hf]
        exact hc'
      exact ⟨c', (List.mem_filter.mp hcf).1, rfl⟩

theorem mem_enumFrom_snd {α : Type} :
    ∀ {n : Nat} {l : List α} {p : Nat × α}, p ∈ l.enumFrom n → p.2 ∈ l := by
  intro n l
  induction l generalizing n with
  | nil => intro p hp; cases hp
  | cons a rest ih =>
      intro p hp
      rcases List.mem_cons.mp hp with rfl | hp
      · exact List.mem_cons_self _ _
      · exact List.mem_cons_of_mem _ (ih hp)

theorem transformCustomerRow_salt_indep {r : RawCustomer}
    (h : canonicalizeEmail r.email = none → cleanId r.customer_id ≠ none)
    (s1 s2 i1 i2 : Nat) :
    transformCustomerRow s1 i1 r = transformCustomerRow s2 i2 r := by
  unfold transformCustomerRow
  cases hce : canonicalizeEmail r.email with
  | some e => rfl
  | none =>
      cases hcid : cleanId r.customer_id with
      | none => exact absurd hcid (h hce)
      | some v => rfl

/-- Under H1 (every customer row lacking a canonical email carries a
source id), the customer transform does not depend on the run's random
draws. -/
theorem transformCustomers_salt_indep {rows : List RawCustomer}
    (H1 : ∀ r ∈ rows, canonicalizeEmail r.email = none →
      cleanId r.customer_id ≠ none) (s1 s2 : Nat) :
    transformCustomers rows s1 = transformCustomers rows s2 := by
  unfold transformCustomers
  congr 1
  apply List.map_congr_left
  intro p hp
  exact transformCustomerRow_salt_indep (H1 p.2 (mem_enumFrom_snd hp)) s1 s2 p.1 p.1

theorem extractCheck_none_of_run_ok {inp : Input} {salt : Nat} {S : Store}
    (h : (runPipeline inp salt S).error = none) : extractCheck inp = none := by
  cases hx : extractCheck inp with
  | none => rfl
  | some e =>
      unfold runPipeline at h
      rw [hx] at h
      cases h

theorem runPipeline_eq_loadPhase {inp : Input} {salt : Nat} {S : Store}
    (hx : extractCheck inp = none) :
    runPipeline inp salt S =
      loadPhase (transformCustomers inp.customers salt)
        (transformProducts (inp.productsCols.contains "product_id") inp.products)
        (stagedSales inp.sales (transformCustomers inp.customers salt)) salt S := by
  unfold runPipeline
  rw [hx]

/-- A successful load phase with no stub synthesis decomposes into its
four commits. -/
theorem loadPhase_cases {T : List TCustomer} {P : List TProduct} {L : List SLine}
    {salt : Nat} {S : Store}
    (hok : (loadPhase T P L salt S).error = none)
    (hmiss : L.any (fun l => l.email.isNone) = false) :
    ∃ S1 S2 S3,
      upsertCustomers T S = .ok S1 ∧
      loadProducts P S1 = .ok S2 ∧
      insertList insertOrder (buildOrders (resolveAgainst S2 L)) S2 = .ok S3 ∧
      insertList insertItemLine (itemCandidates (resolveAgainst S2 L) S3) S3 =
        .ok (loadPhase T P L salt S).store := by
  cases hu : upsertCustomers T S with
  | error e =>
      simp only [loadPhase, hu] at hok
      cases hok
  | ok S1 =>
      cases hp : loadProducts P S1 with
      | error e =>
          simp only [loadPhase, hu, hp] at hok
          cases hok
      | ok S2 =>
          cases ho : insertList insertOrder (buildOrders (resolveAgainst S2 L)) S2 with
          | error e =>
              simp only [loadPhase, hu, hp, remapSales_no_missing hmiss,
                loadOrdersAndItems, ho] at hok
              cases hok
          | ok S3 =>
              cases hi : insertList insertItemLine
                  (itemCandidates (resolveAgainst S2 L) S3) S3 with
              | error e =>
                  simp only [loadPhase, hu, hp, remapSales_no_missing hmiss,
                    loadOrdersAndItems, ho, hi] at hok
                  cases hok
              | ok S4 =>
                  refine ⟨S1, S2, S3, rfl, hp, ho, ?_⟩
                  rw [hi]
                  congr 1
                  simp only [loadPhase, hu, hp, remapSales_no_missing hmiss,
                    loadOrdersAndItems, ho, hi]

theorem upsert_checks {T : List TCustomer} {S S' : Store}
    (h : upsertCustomers T S = .ok S') : ∀ c ∈ T, custRowOk c := by
  unfold upsertCustomers at h
  split at h
  · cases h
  · rename_i S1 h1
    intro c hc
    cases hcid : c.cid with
    | some v =>
        exact insertList_forall_ok
          (fun a X X' hins => insertCustomerWithId_ok_checks hins) h1 c
          (List.mem_filter.mpr ⟨hc, by simp [hcid]⟩)
    | none =>
        exact insertList_forall_ok
          (fun a X X' hins => insertCustomerAuto_ok_checks hins) h c
          (List.mem_filter.mpr ⟨hc, by simp [hcid]⟩)

theorem loadProducts_checks {P : List TProduct} {S S' : Store}
    (h : loadProducts P S = .ok S') :
    (∀ p ∈ P, p.name ≠ RV.na) ∧
    (∀ p ∈ P, p.pid.isSome = true → p.pid.getD 0 ∈ productIds S') := by
  unfold loadProducts at h
  split at h
  · cases h
  · rename_i S1 h1
    have hw := insertList_present (fun p : TProduct => p.pid.getD 0)
      (fun k X => k ∈ productIds X)
      (fun a X X' hins => insertProductWithId_id_mono hins)
      (fun a X X' hins => insertProductWithId_id_self hins) h1
    have hmono2 : ∀ k, k ∈ productIds S1 → k ∈ productIds S' := fun k hk =>
      insertList_preserve (fun X => k ∈ productIds X)
        (fun a X X' hins hq =>
          mem_map_mono _ (insertProductAuto_shape hins).2.2.2 _ hq) h hk
    constructor
    · intro p hpP
      cases hpid : p.pid with
      | some v =>
          exact insertList_forall_ok
            (fun a X X' hins => insertProductWithId_ok_name hins) h1 p
            (List.mem_filter.mpr ⟨hpP, by simp [hpid]⟩)
      | none =>
          exact insertList_forall_ok
            (fun a X X' hins => insertProductAuto_ok_name hins) h p
            (List.mem_filter.mpr ⟨hpP, by simp [hpid]⟩)
    · intro p hpP hs
      refine hmono2 _ (hw.1 p ?_)
      exact List.mem_filter.mpr ⟨hpP, hs⟩

/-- What a successful run establishes about its final store: the data
needed to show that a re-run from that store is a no-op on customers,
products and orders. -/
theorem loadPhase_ensures {T : List TCustomer} {P : List TProduct} {L : List SLine}
    {salt : Nat} {S : Store}
    (hok : (loadPhase T P L salt S).error = none)
    (hmiss : L.any (fun l => l.email.isNone) = false) :
    (∀ c ∈ T, custRowOk c ∧
      c.email ∈ storeEmails (loadPhase T P L salt S).store) ∧
    (∀ p ∈ P, p.name ≠ RV.na ∧ (p.pid.isSome = true →
      p.pid.getD 0 ∈ productIds (loadPhase T P L salt S).store)) ∧
    (∀ o ∈ buildOrders (resolveAgainst (loadPhase T P L salt S).store L),
      orderOk o ∧ o.id ∈ orderIds (loadPhase T P L salt S).store) := by
  obtain ⟨S1, S2, S3, hu, hp, ho, hi⟩ := loadPhase_cases hok hmiss
  have f2 := loadProducts_frame hp
  have f3 := insertOrders_frame ho
  have f4 := insertItems_effect hi
  have hcV : (loadPhase T P L salt S).store.customers = S1.customers := by
    rw [f4.1, f3.1, f2.1]
  have hcV2 : (loadPhase T P L salt S).store.customers = S2.customers := by
    rw [f4.1, f3.1]
  have hpV : productIds (loadPhase T P L salt S).store = productIds S2 := by
    unfold productIds
    rw [f4.2.1, f3.2.1]
  have hoV : orderIds (loadPhase T P L salt S).store = orderIds S3 := by
    unfold orderIds
    rw [f4.2.2.1]
  refine ⟨?_, ?_, ?_⟩
  · intro c hc
    refine ⟨upsert_checks hu c hc, ?_⟩
    have h1 := (upsert_emails hu).2.2 c hc
    show c.email ∈ storeEmails (loadPhase T P L salt S).store
    unfold storeEmails
    rw [hcV]
    exact h1
  · intro p hpP
    obtain ⟨hn, hpr⟩ := loadProducts_checks hp
    refine ⟨hn p hpP, fun hs => ?_⟩
    rw [hpV]
    exact hpr p hpP hs
  · rw [resolveAgainst_congr hcV2 L]
    intro o hoB
    refine ⟨insertList_forall_ok
      (fun a X X' hins => insertOrder_ok_checks hins) ho o hoB, ?_⟩
    have hpres := (insertList_present (fun o : OrderB => o.id)
      (fun k X => k ∈ orderIds X)
      (fun a X X' hins => insertOrder_id_mono hins)
      (fun a X X' hins => insertOrder_id_self hins) ho).1 o hoB
    rw [hoV]
    exact hpres

/-- A successful run against a store that already holds all the data is
a no-op on customers, products and orders, and appends exactly one item
row per candidate item. -/
theorem loadPhase_stable {T : List TCustomer} {P : List TProduct} {L : List SLine}
    {salt : Nat} {S : Store}
    (hT : ∀ c ∈ T, custRowOk c ∧ c.email ∈ storeEmails S)
    (hPs : ∀ p ∈ P, p.pid.isSome = true)
    (hPn : ∀ p ∈ P, p.name ≠ RV.na ∧ p.pid.getD 0 ∈ productIds S)
    (hmiss : L.any (fun l => l.email.isNone) = false)
    (hB : ∀ o ∈ buildOrders (resolveAgainst S L), orderOk o ∧ o.id ∈ orderIds S)
    (hok : (loadPhase T P L salt S).error = none) :
    (loadPhase T P L salt S).store.customers = S.customers ∧
    (loadPhase T P L salt S).store.products = S.products ∧
    (loadPhase T P L salt S).store.orders = S.orders ∧
    (loadPhase T P L salt S).store.items.length =
      S.items.length + (itemCandidates (resolveAgainst S L) S).length := by
  obtain ⟨S1, S2, S3, hu, hp, ho, hi⟩ := loadPhase_cases hok hmiss
  have e1 : S1 = S := (Except.ok.inj ((upsert_noop hT).symm.trans hu)).symm
  subst e1
  have e2 : S2 = S1 :=
    (Except.ok.inj ((loadProducts_noop hPs hPn).symm.trans hp)).symm
  subst e2
  have e3 : S3 = S2 := by
    have hnoop : insertList insertOrder (buildOrders (resolveAgainst S2 L)) S2 =
        .ok S2 :=
      insertList_noop (fun o hoB => insertOrder_noop (hB o hoB).1 (hB o hoB).2)
    exact (Except.ok.inj (hnoop.symm.trans ho)).symm
  subst e3
  exact insertItems_effect hi

theorem itemCandidates_congr {S1 S2 : Store} (h : S1.orders = S2.orders)
    (R : List SLine) : itemCandidates R S1 = itemCandidates R S2 := by
  unfold itemCandidates
  refine List.filter_congr (fun l _ => ?_)
  cases l.tid with
  | none => rfl
  | some t => simp [orderIds, h]

/-- C2 counterexample: the order-item insert has no conflict clause and
an auto-assigned key, so every run re-inserts all candidate items.  On
a one-line input, three successful runs against an initially empty
store leave 2 items after run 2 but 3 after run 3 — the row counts
after runs 2 and 3 are not identical in all four tables. -/
theorem full_pipeline_not_idempotent :
    (runPipeline exInput 1 emptyStore).error = none ∧
    (runPipeline exInput 2 (runPipeline exInput 1 emptyStore).store).error =
      none ∧
    (runPipeline exInput 3 (runPipeline exInput 2
      (runPipeline exInput 1 emptyStore).store).store).error = none ∧
    (runPipeline exInput 2
      (runPipeline exInput 1 emptyStore).store).store.items.length = 2 ∧
    (runPipeline exInput 3 (runPipeline exInput 2
      (runPipeline exInput 1 emptyStore).store).store).store.items.length = 3 := by
  decide

/-- C2 amended: for inputs where (H1) every customer row lacking a
canonical email carries a source id, (H2) every staged sales line
resolves to a transformed customer's email, and (H3) every product row
carries a source id — i.e. no random placeholder synthesis and no
id-less product inserts — three successful runs from an empty store
leave **identical customers, products and orders tables** after runs 2
and 3, while the order_items count grows by the same per-run amount `k`
on each re-run (so the claimed all-four-table count equality holds only
when no order item loads at all). -/
theorem pipeline_rerun_counts (inp : Input) (s1 s2 s3 : Nat)
    (H1 : ∀ r ∈ inp.customers, canonicalizeEmail r.email = none →
      cleanId r.customer_id ≠ none)
    (H2 : ∀ l ∈ stagedSales inp.sales (transformCustomers inp.customers 0),
      l.email.isSome = true)
    (H3 : ∀ p ∈ transformProducts (inp.productsCols.contains "product_id")
      inp.products, p.pid.isSome = true)
    (h1 : (runPipeline inp s1 emptyStore).error = none)
    (h2 : (runPipeline inp s2 (runPipeline inp s1 emptyStore).store).error = none)
    (h3 : (runPipeline inp s3 (runPipeline inp s2
      (runPipeline inp s1 emptyStore).store).store).error = none) :
    ((runPipeline inp s3 (runPipeline inp s2
        (runPipeline inp s1 emptyStore).store).store).store.customers =
      (runPipeline inp s2
        (runPipeline inp s1 emptyStore).store).store.customers) ∧
    ((runPipeline inp s3 (runPipeline inp s2
        (runPipeline inp s1 emptyStore).store).store).store.products =
      (runPipeline inp s2
        (runPipeline inp s1 emptyStore).store).store.products) ∧
    ((runPipeline inp s3 (runPipeline inp s2
        (runPipeline inp s1 emptyStore).store).store).store.orders =
      (runPipeline inp s2
        (runPipeline inp s1 emptyStore).store).store.orders) ∧
    ∃ k, (runPipeline inp s2
        (runPipeline inp s1 emptyStore).store).store.items.length =
      (runPipeline inp s1 emptyStore).store.items.length + k ∧
    (runPipeline inp s3 (runPipeline inp s2
        (runPipeline inp s1 emptyStore).store).store).store.items.length =
      (runPipeline inp s2
        (runPipeline inp s1 emptyStore).store).store.items.length + k := by
  have hx : extractCheck inp = none := extractCheck_none_of_run_ok h1
  have hsalt : ∀ s : Nat, transformCustomers inp.customers s =
      transformCustomers inp.customers 0 := fun s =>
    transformCustomers_salt_indep H1 s 0
  have hrun : ∀ (s : Nat) (X : Store), runPipeline inp s X =
      loadPhase (transformCustomers inp.customers 0)
        (transformProducts (inp.productsCols.contains "product_id") inp.products)
        (stagedSales inp.sales (transformCustomers inp.customers 0)) s X := by
    intro s X
    rw [runPipeline_eq_loadPhase hx, hsalt s]
  simp only [hrun] at h1 h2 h3 ⊢
  have hmiss : (stagedSales inp.sales
      (transformCustomers inp.customers 0)).any
        (fun l => l.email.isNone) = false := by
    rw [List.any_eq_false]
    intro l hl
    rcases Option.isSome_iff_exists.mp (H2 l hl) with ⟨e, he⟩
    simp [he]
  obtain ⟨E1c, E1p, E1o⟩ := loadPhase_ensures h1 hmiss
  have hPn1 : ∀ p ∈ transformProducts (inp.productsCols.contains "product_id")
      inp.products, p.name ≠ RV.na ∧ p.pid.getD 0 ∈ productIds
        (loadPhase (transformCustomers inp.customers 0)
          (transformProducts (inp.productsCols.contains "product_id") inp.products)
          (stagedSales inp.sales (transformCustomers inp.customers 0)) s1
          emptyStore).store := fun p hp =>
    ⟨(E1p p hp).1, (E1p p hp).2 (H3 p hp)⟩
  obtain ⟨st2c, st2p, st2o, st2i⟩ := loadPhase_stable E1c H3 hPn1 hmiss E1o h2
  have hT3 : ∀ c ∈ transformCustomers inp.customers 0, custRowOk c ∧
      c.email ∈ storeEmails (loadPhase (transformCustomers inp.customers 0)
        (transformProducts (inp.productsCols.contains "product_id") inp.products)
        (stagedSales inp.sales (transformCustomers inp.customers 0)) s2
        (loadPhase (transformCustomers inp.customers 0)
          (transformProducts (inp.productsCols.contains "product_id") inp.products)
          (stagedSales inp.sales (transformCustomers inp.customers 0)) s1
          emptyStore).store).store := by
    intro c hc
    refine ⟨(E1c c hc).1, ?_⟩
    unfold storeEmails
    rw [st2c]
    exact (E1c c hc).2
  have hPn3 : ∀ p ∈ transformProducts (inp.productsCols.contains "product_id")
      inp.products, p.name ≠ RV.na ∧ p.pid.getD 0 ∈ productIds
        (loadPhase (transformCustomers inp.customers 0)
          (transformProducts (inp.productsCols.contains "product_id") inp.products)
          (stagedSales inp.sales (transformCustomers inp.customers 0)) s2
          (loadPhase (transformCustomers inp.customers 0)
            (transformProducts (inp.productsCols.contains "product_id") inp.products)
            (stagedSales inp.sales (transformCustomers inp.customers 0)) s1
            emptyStore).store).store := by
    intro p hp
    refine ⟨(hPn1 p hp).1, ?_⟩
    unfold productIds
    rw [st2p]
    exact (hPn1 p hp).2
  have hB3 : ∀ o ∈ buildOrders (resolveAgainst
      (loadPhase (transformCustomers inp.customers 0)
        (transformProducts (inp.productsCols.contains "product_id") inp.products)
        (stagedSales inp.sales (transformCustomers inp.customers 0)) s2
        (loadPhase (transformCustomers inp.customers 0)
          (transformProducts (inp.productsCols.contains "product_id") inp.products)
          (stagedSales inp.sales (transformCustomers inp.customers 0)) s1
          emptyStore).store).store
      (stagedSales inp.sales (transformCustomers inp.customers 0))),
      orderOk o ∧ o.id ∈ orderIds
        (loadPhase (transformCustomers inp.customers 0)
          (transformProducts (inp.productsCols.contains "product_id") inp.products)
          (stagedSales inp.sales (transformCustomers inp.customers 0)) s2
          (loadPhase (transformCustomers inp.customers 0)
            (transformProducts (inp.productsCols.contains "product_id") inp.products)
            (stagedSales inp.sales (transformCustomers inp.customers 0)) s1
            emptyStore).store).store := by
    rw [resolveAgainst_congr st2c]
    intro o hoB
    refine ⟨(E1o o hoB).1, ?_⟩
    unfold orderIds
    rw [st2o]
    exact (E1o o hoB).2
  obtain ⟨st3c, st3p, st3o, st3i⟩ := loadPhase_stable hT3 H3 hPn3 hmiss hB3 h3
  refine ⟨st3c, st3p, st3o, ?_⟩
  refine ⟨(itemCandidates (resolveAgainst
    (loadPhase (transformCustomers inp.customers 0)
      (transformProducts (inp.productsCols.contains "product_id") inp.products)
      (stagedSales inp.sales (transformCustomers inp.customers 0)) s1
      emptyStore).store
    (stagedSales inp.sales (transformCustomers inp.customers 0)))
    (loadPhase (transformCustomers inp.customers 0)
      (transformProducts (inp.productsCols.contains "product_id") inp.products)
      (stagedSales inp.sales (transformCustomers inp.customers 0)) s1
      emptyStore).store).length, st2i, ?_⟩
  rw [st3i]
  congr 1
  rw [resolveAgainst_congr st2c, itemCandidates_congr st2o]

theorem pipeline_rerun_counts_witness :
    ((runPipeline exInput 3 (runPipeline exInput 2
        (runPipeline exInput 1 emptyStore).store).store).store.customers =
      (runPipeline exInput 2
        (runPipeline exInput 1 emptyStore).store).store.customers) ∧
    ((runPipeline exInput 3 (runPipeline exInput 2
        (runPipeline exInput 1 emptyStore).store).store).store.products =
      (runPipeline exInput 2
        (runPipeline exInput 1 emptyStore).store).store.products) ∧
    ((runPipeline exInput 3 (runPipeline exInput 2
        (runPipeline exInput 1 emptyStore).store).store).store.orders =
      (runPipeline exInput 2
        (runPipeline exInput 1 emptyStore).store).store.orders) ∧
    ∃ k, (runPipeline exInput 2
        (runPipeline exInput 1 emptyStore).store).store.items.length =
      (runPipeline exInput 1 emptyStore).store.items.length + k ∧
    (runPipeline exInput 3 (runPipeline exInput 2
        (runPipeline exInput 1 emptyStore).store).store).store.items.length =
      (runPipeline exInput 2
        (runPipeline exInput 1 emptyStore).store).store.items.length + k :=
  pipeline_rerun_counts exInput 1 2 3 (by decide) (by decide) (by decide)
    (by decide) (by decide) (by decide)

end FlexiMart

